import Mathlib

/-!
# poolfrontend: start-up wiring of `src/main.cpp`

A shallow embedding of `main` (from the point where `config.load` has succeeded, line 115, up
to the point where it waits for its worker threads, line 308), of `InitializeWorkerThread`,
and of the shutdown (lines 293-312) as the interleaved steps of the signal thread, the worker
threads and `main`.

Conventions of the embedding:

* Classes whose implementation lives outside `main.cpp` (`UserManager`,
  `CNetworkClientDispatcher`, `PoolBackend`, `PoolHttpServer`) are records of their constructor
  arguments and of the method calls `main` makes on them.  Objects allocated with `new` get
  their identity from an allocation counter kept in the program state.
* Library functions (`CCoinLibrary::get`, `checkAddress`, `parseMoneyValue`,
  `PoolInstanceFabric::get`, `gethostbyname`, `atoi`, `htons`, `hardware_concurrency`) are
  fields of `Env`, as are the bit width of the unsigned type of the timing members, which is
  declared in headers outside `main.cpp`, and the contract of the reactor call `asyncLoop`.
* A block of `main` ends in one of three ways: control reaches the next statement, the block
  executes `return 1`, or it dereferences a null pointer.
* A `std::string` and its `c_str()` are identified (configuration strings are read from JSON
  as C strings).  Fee percentages are C++ floats: the code compares them with `100.0f` and
  prints them with `%.3f`.
* Logging is not modelled.
-/

set_option autoImplicit false

namespace PoolFrontend

/-! ## Values -/

/-- Values of the C++ `float` type: a finite value (always a rational number), an infinity
or a NaN. -/
inductive FloatVal where
  | finite (q : ℚ)
  | posInf
  | negInf
  | nan
  deriving DecidableEq

/-- The C++ comparison `a > b` on floats: false as soon as one side is a NaN. -/
def FloatVal.gt : FloatVal → FloatVal → Bool
  | .nan, _ => false
  | _, .nan => false
  | .posInf, .posInf => false
  | .posInf, _ => true
  | _, .posInf => false
  | .negInf, _ => false
  | .finite _, .negInf => true
  | .finite a, .finite b => decide (b < a)

/-- The literal `100.0f`. -/
def hundred : FloatVal := .finite 100

/-- Exact (rational) sum of a list of float values; `none` when one of them is not finite. -/
def exactSum : List FloatVal → Option ℚ
  | [] => some 0
  | .finite q :: rest => (exactSum rest).map (fun s => q + s)
  | _ :: _ => none

/-! ## Configuration (`config.h`: only the members `main` reads) -/

structure CFeeConfig where
  Address : String
  Percentage : FloatVal
  deriving DecidableEq

structure CNodeConfig where
  Type_ : String
  Address : String
  Login : String
  Password : String
  deriving DecidableEq

structure CCoinConfig where
  Name : String
  Nodes : List CNodeConfig
  Fees : List CFeeConfig
  RequiredConfirmations : Nat
  DefaultPayoutThreshold : String
  MinimalAllowedPayout : String
  KeepRoundTime : Nat
  KeepStatsTime : Nat
  ConfirmationsCheckInterval : Nat
  PayoutInterval : Nat
  BalanceCheckInterval : Nat
  StatisticCheckInterval : Nat
  deriving DecidableEq

structure CInstanceConfig where
  Name : String
  Type_ : String
  Protocol : String
  Backends : List String
  InstanceConfig : String
  deriving DecidableEq

structure CPoolFrontendConfig where
  IsMaster : Bool
  DbPath : String
  HttpPort : Nat
  WorkerThreadsNum : Nat
  PoolName : String
  PoolHostAddress : String
  PoolActivateLinkPrefix : String
  SmtpEnabled : Bool
  SmtpServer : String
  SmtpLogin : String
  SmtpPassword : String
  SmtpSenderAddress : String
  SmtpUseSmtps : Bool
  SmtpUseStartTls : Bool
  Coins : List CCoinConfig
  Instances : List CInstanceConfig
  deriving DecidableEq

/-! ## Library types and functions used by `main` -/

/-- The members of `CCoinInfo` that `main` reads. -/
structure CCoinInfo where
  Name : String
  RationalPartSize : Nat
  PayoutAddressType : Nat
  deriving DecidableEq

/-- What `gethostbyname` returns when it does not return a null pointer: `h_addr` is either
null or points at an address, read by `main` as one `u_long`. -/
structure hostent where
  h_addr : Option Nat
  deriving DecidableEq

/-- The library functions and platform parameters `main` depends on. -/
structure Env where
  /-- Result of `CCoinLibrary::get(coinName)`. -/
  coinLibraryGet : String → CCoinInfo
  /-- Result of `coinInfo.checkAddress(address, type)`. -/
  checkAddress : CCoinInfo → String → Nat → Bool
  /-- Value stored by `parseMoneyValue(text, rationalPartSize, &out)`; `none` when it
  returns false. -/
  parseMoneyValue : String → Nat → Option Int
  /-- Whether `PoolInstanceFabric::get(base, type, protocol, config)` returns an instance
  (false: it returns null). -/
  fabricGet : String → String → String → Bool
  /-- Result of `gethostbyname(name)`: `none` is the null pointer. -/
  gethostbyname : String → Option hostent
  /-- The C function `atoi`. -/
  atoi : String → Int
  /-- The function `htons`, applied to the `uint16_t` conversion of its argument. -/
  htons : Nat → Nat
  /-- Result of `std::thread::hardware_concurrency()`. -/
  hardwareConcurrency : Nat
  /-- Bit width of the unsigned integer type of the timing members of `CCoinConfig` and
  `PoolBackendConfig` (declared in headers outside `main.cpp`); 32 for `unsigned`. -/
  uintBits : Nat
  /-- Contract of the reactor call `asyncLoop(base)`: whether the call can return, given
  whether `postQuitOperation(base)` has been called. -/
  asyncLoopReturns : Bool → Bool

/-! ## Objects built by `main` -/

structure PoolFeeEntry where
  Address : String
  Percentage : FloatVal
  deriving DecidableEq

structure PoolBackendConfig where
  isMaster : Bool
  dbPath : String
  RequiredConfirmations : Nat
  DefaultPayoutThreshold : Int
  MinimalAllowedPayout : Int
  KeepRoundTime : Nat
  KeepStatsTime : Nat
  ConfirmationsCheckInterval : Nat
  PayoutInterval : Nat
  BalanceCheckInterval : Nat
  StatisticCheckInterval : Nat
  PoolFee : List PoolFeeEntry
  deriving DecidableEq

structure HostAddress where
  family : Nat
  ipv4 : Nat
  port : Nat
  deriving DecidableEq

/-- The constant `AF_INET`. -/
def AF_INET : Nat := 2

/-- Arguments of one `UserManager::enableSMTP` call. -/
structure SmtpSettings where
  address : HostAddress
  login : String
  password : String
  senderAddress : String
  useSmtps : Bool
  useStartTls : Bool
  deriving DecidableEq

/-- The user manager, as the record of what `main` did to it. -/
structure UserManager where
  DatabasePath : String
  BaseCfg : Option (String × String × String)
  Smtp : Option SmtpSettings
  Coins : List (CCoinInfo × Int)
  Started : Bool
  deriving DecidableEq

/-- Arguments of `new CBitcoinRpcClient(base, coinInfo, address, login, password)`. -/
structure CBitcoinRpcClient where
  CoinInfo : CCoinInfo
  Address : String
  Login : String
  Password : String
  deriving DecidableEq

/-- A pool instance returned by `PoolInstanceFabric::get`: `Id` is the identity of the
object (the number of instances the fabric had returned before it). -/
structure CPoolInstance where
  Id : Nat
  Type_ : String
  Protocol : String
  InstanceConfig : String
  deriving DecidableEq

/-- A dispatcher object: `Id` is the identity of the object (the number of dispatchers
allocated before it), `Clients` the `addClient` calls and `Linked` the `connectWith` calls it
received, in order. -/
structure CNetworkClientDispatcher where
  Id : Nat
  CoinInfo : CCoinInfo
  TotalThreadsNum : Nat
  Clients : List CBitcoinRpcClient
  Linked : List CPoolInstance
  Polling : Bool
  deriving DecidableEq

/-- A backend: its constructor arguments (`Dispatcher` is the identity of the dispatcher it
holds a reference to) and whether `start()` was called. -/
structure PoolBackend where
  Config : PoolBackendConfig
  CoinInfo : CCoinInfo
  Dispatcher : Nat
  Started : Bool
  deriving DecidableEq

structure PoolHttpServer where
  Port : Nat
  Started : Bool
  deriving DecidableEq

structure PoolContext where
  IsMaster : Bool
  DatabasePath : String
  HttpPort : Nat
  CoinList : List CCoinInfo
  ClientsDispatcher : List CNetworkClientDispatcher
  Backends : List PoolBackend
  CoinIdxMap : List (String × Nat)
  Instances : List (Option CPoolInstance)
  UserMgr : UserManager
  HttpServer : Option PoolHttpServer
  deriving DecidableEq

/-- The program state of `main`: the pool context, the allocation counters that give
dispatchers and instances their identity, and the worker threads started. -/
structure State where
  poolContext : PoolContext
  dispatchersCreated : Nat
  instancesCreated : Nat
  workerThreads : Nat
  deriving DecidableEq

/-- The two ways a block of `main` ends the run: `return 1`, or the dereference of a null
pointer (undefined behaviour; the process does not return from `main`). -/
inductive Halt where
  | return1
  | nullDeref
  deriving DecidableEq

/-- Result of a block of `main`: control reaches the next statement, or the run ends. -/
inductive Step where
  | next (s : State)
  | halt (h : Halt) (s : State)
  deriving DecidableEq

/-- Whether control reached the next statement. -/
def Step.isNext : Step → Bool
  | .next _ => true
  | .halt _ _ => false

/-- The state a block ended in. -/
def Step.state : Step → State
  | .next s => s
  | .halt _ s => s

/-! ## `std::unordered_map<std::string, size_t>` -/

/-- Assignment `map[key] = value`: the entry for `key` is created or overwritten. -/
def mapAssign (m : List (String × Nat)) (key : String) (value : Nat) : List (String × Nat) :=
  (key, value) :: m.filter (fun e => e.1 != key)

/-- Lookup `map.find(key)`: `none` is `map.end()`. -/
def mapFind (m : List (String × Nat)) (key : String) : Option Nat :=
  (m.find? (fun e => e.1 == key)).map (fun e => e.2)

/-! ## Integer arithmetic -/

/-- Product in an unsigned type of `w` bits. -/
def mulU (w a b : Nat) : Nat := (a * b) % 2 ^ w

/-- Lines 120-122, the worker count used by `main` (an `unsigned`): the configured count, or
when that is 0 the hardware concurrency, or 4 when that is 0 too (the two calls of
`hardware_concurrency` return the same value). -/
def workerThreadsNum (env : Env) (config : CPoolFrontendConfig) : Nat :=
  let n := config.WorkerThreadsNum % 2 ^ 32
  if n = 0 then (if env.hardwareConcurrency % 2 ^ 32 ≠ 0 then env.hardwareConcurrency % 2 ^ 32 else 4)
  else n

/-- Lines 125-130, the value of `1 + 1 + workerThreadsNum + config.Coins.size() + 1` stored into the
`unsigned totalThreadsNum`: the sum with the `unsigned` operand is taken modulo `2^32`, the
sums with the `size_t` operand modulo `2^64`, and the result is converted to `unsigned`. -/
def totalThreadsNum (env : Env) (config : CPoolFrontendConfig) : Nat :=
  ((((1 + 1 + workerThreadsNum env config) % 2 ^ 32 + config.Coins.length) % 2 ^ 64 + 1)
    % 2 ^ 64) % 2 ^ 32

/-! ## The blocks of `main` -/

/-- The C function `strchr(text, c)`: `none` when `c` does not occur, otherwise the text
before the first occurrence of `c` and the text after it. -/
def strchr (text : String) (c : Char) : Option (String × String) :=
  if c ∈ text.data then
    some (String.mk (text.data.takeWhile (fun x => x != c)),
          String.mk ((text.data.dropWhile (fun x => x != c)).drop 1))
  else none

/-- Lines 132-136: the user manager is created and given the base configuration. -/
def initialState (config : CPoolFrontendConfig) : State :=
  { poolContext :=
      { IsMaster := config.IsMaster
        DatabasePath := config.DbPath
        HttpPort := config.HttpPort
        CoinList := []
        ClientsDispatcher := []
        Backends := []
        CoinIdxMap := []
        Instances := []
        UserMgr :=
          { DatabasePath := config.DbPath
            BaseCfg := some (config.PoolName, config.PoolHostAddress, config.PoolActivateLinkPrefix)
            Smtp := none
            Coins := []
            Started := false }
        HttpServer := none }
    dispatchersCreated := 0
    instancesCreated := 0
    workerThreads := 0 }

/-- Lines 139-166, the SMTP block.  After a failed lookup (`host` null) the code logs an
error and goes on to evaluate `host->h_addr`. -/
def smtpConfig (env : Env) (config : CPoolFrontendConfig) (s : State) : Step :=
  if config.SmtpEnabled then
    match strchr config.SmtpServer ':' with
    | none => .halt .return1 s
    | some (hostName, portText) =>
      match env.gethostbyname hostName with
      | none => .halt .nullDeref s
      | some host =>
        let addr : Nat := match host.h_addr with
          | some a => a
          | none => 0
        if addr = 0 then .halt .return1 s
        else
          let smtpAddress : HostAddress :=
            { family := AF_INET
              ipv4 := addr % 2 ^ 32
              port := env.htons (env.atoi portText % 2 ^ 16).toNat }
          .next { s with poolContext := { s.poolContext with UserMgr := { s.poolContext.UserMgr with
            Smtp := some
              { address := smtpAddress
                login := config.SmtpLogin
                password := config.SmtpPassword
                senderAddress := config.SmtpSenderAddress
                useSmtps := config.SmtpUseSmtps
                useStartTls := config.SmtpUseStartTls } } } }
  else .next s

/-- Lines 202-216, the pool fee loop: `none` when it executes `return 1`, otherwise the
contents of `backendConfig.PoolFee`. -/
def poolFeeLoop (env : Env) (coinInfo : CCoinInfo) : List CFeeConfig → Option (List PoolFeeEntry)
  | [] => some []
  | fee :: rest =>
    let entry : PoolFeeEntry := { Address := fee.Address, Percentage := fee.Percentage }
    if !env.checkAddress coinInfo entry.Address coinInfo.PayoutAddressType then none
    else if entry.Percentage.gt hundred then none
    else (poolFeeLoop env coinInfo rest).map (fun entries => entry :: entries)

/-- Method `CNetworkClientDispatcher::addClient`. -/
def CNetworkClientDispatcher.addClient (d : CNetworkClientDispatcher) (client : CBitcoinRpcClient) :
    CNetworkClientDispatcher :=
  { d with Clients := d.Clients ++ [client] }

/-- Method `CNetworkClientDispatcher::connectWith`. -/
def CNetworkClientDispatcher.connectWith (d : CNetworkClientDispatcher) (inst : CPoolInstance) :
    CNetworkClientDispatcher :=
  { d with Linked := d.Linked ++ [inst] }

/-- Line 228: `new CBitcoinRpcClient(base, coinInfo, node.Address, node.Login, node.Password)`. -/
def clientOf (coinInfo : CCoinInfo) (node : CNodeConfig) : CBitcoinRpcClient :=
  { CoinInfo := coinInfo, Address := node.Address, Login := node.Login, Password := node.Password }

/-- Lines 224-235, the node loop: `none` when it executes `return 1`, otherwise the
dispatcher after the `addClient` calls. -/
def nodeLoop (coinInfo : CCoinInfo) : List CNodeConfig → CNetworkClientDispatcher →
    Option CNetworkClientDispatcher
  | [], dispatcher => some dispatcher
  | node :: rest, dispatcher =>
    if node.Type_ = "bitcoinrpc" then
      nodeLoop coinInfo rest (dispatcher.addClient (clientOf coinInfo node))
    else none

/-- Lines 179-216: `backendConfig` is filled from the inherited pool parameters (`isMaster`,
`dbPath`) and the coin configuration; `none` when one of the `return 1` statements of these
lines is executed. -/
def makeBackendConfig (env : Env) (isMaster : Bool) (dbPath : String) (coinConfig : CCoinConfig)
    (coinInfo : CCoinInfo) : Option PoolBackendConfig :=
  match env.parseMoneyValue coinConfig.DefaultPayoutThreshold coinInfo.RationalPartSize with
  | none => none
  | some defaultPayoutThreshold =>
    match env.parseMoneyValue coinConfig.MinimalAllowedPayout coinInfo.RationalPartSize with
    | none => none
    | some minimalAllowedPayout =>
      let w := env.uintBits
      match poolFeeLoop env coinInfo coinConfig.Fees with
      | none => none
      | some poolFee =>
        some
          { isMaster := isMaster
            dbPath := dbPath
            RequiredConfirmations := coinConfig.RequiredConfirmations
            DefaultPayoutThreshold := defaultPayoutThreshold
            MinimalAllowedPayout := minimalAllowedPayout
            KeepRoundTime := mulU w (mulU w coinConfig.KeepRoundTime 24) 3600
            KeepStatsTime := mulU w coinConfig.KeepStatsTime 60
            ConfirmationsCheckInterval := mulU w (mulU w coinConfig.ConfirmationsCheckInterval 60) 1000000
            PayoutInterval := mulU w (mulU w coinConfig.PayoutInterval 60) 1000000
            BalanceCheckInterval := mulU w (mulU w coinConfig.BalanceCheckInterval 60) 1000000
            StatisticCheckInterval := mulU w (mulU w coinConfig.StatisticCheckInterval 60) 1000000
            PoolFee := poolFee }

/-- Line 223: `new CNetworkClientDispatcher(base, coinInfo, totalThreadsNum)`, the
`dispatcherId`-th dispatcher allocated. -/
def newDispatcher (dispatcherId : Nat) (coinInfo : CCoinInfo) (total : Nat) :
    CNetworkClientDispatcher :=
  { Id := dispatcherId
    CoinInfo := coinInfo
    TotalThreadsNum := total
    Clients := []
    Linked := []
    Polling := false }

/-- Lines 238-242: the backend is constructed from the configuration, the coin info, the user
manager and the dispatcher, and the pool context is extended. -/
def registerBackend (ctx : PoolContext) (coinName : String) (coinIdx : Nat) (coinInfo : CCoinInfo)
    (backendConfig : PoolBackendConfig) (dispatcher : CNetworkClientDispatcher) : PoolContext :=
  { ctx with
    Backends := ctx.Backends ++
      [{ Config := backendConfig, CoinInfo := coinInfo, Dispatcher := dispatcher.Id,
         Started := false }]
    ClientsDispatcher := ctx.ClientsDispatcher ++ [dispatcher]
    UserMgr := { ctx.UserMgr with
      Coins := ctx.UserMgr.Coins ++ [(coinInfo, backendConfig.DefaultPayoutThreshold)] }
    CoinList := ctx.CoinList ++ [coinInfo]
    CoinIdxMap := mapAssign ctx.CoinIdxMap coinName coinIdx }

/-- Lines 170-242, one iteration of the coin loop. -/
def initBackend (env : Env) (total : Nat) (coinIdx : Nat) (coinConfig : CCoinConfig) (s : State) :
    Step :=
  let coinName := coinConfig.Name
  let coinInfo := env.coinLibraryGet coinName
  if coinInfo.Name.isEmpty then .halt .return1 s
  else
    match makeBackendConfig env s.poolContext.IsMaster s.poolContext.DatabasePath coinConfig
        coinInfo with
    | none => .halt .return1 s
    | some backendConfig =>
      let s1 := { s with dispatchersCreated := s.dispatchersCreated + 1 }
      match nodeLoop coinInfo coinConfig.Nodes (newDispatcher s.dispatchersCreated coinInfo total) with
      | none => .halt .return1 s1
      | some dispatcher =>
        .next { s1 with poolContext :=
          registerBackend s1.poolContext coinName coinIdx coinInfo backendConfig dispatcher }

/-- Lines 169-243, the coin loop, from index `coinIdx` on. -/
def initBackends (env : Env) (total : Nat) : List CCoinConfig → Nat → State → Step
  | [], _, s => .next s
  | coinConfig :: rest, coinIdx, s =>
    match initBackend env total coinIdx coinConfig s with
    | .next s1 => initBackends env total rest (coinIdx + 1) s1
    | .halt h s1 => .halt h s1

/-- Lines 254-262, the loop over the coins an instance is linked with. -/
def linkBackends (inst : CPoolInstance) : List String → State → Step
  | [], s => .next s
  | linkedCoinName :: rest, s =>
    match mapFind s.poolContext.CoinIdxMap linkedCoinName with
    | none => .halt .return1 s
    | some idx =>
      linkBackends inst rest { s with poolContext := { s.poolContext with
        ClientsDispatcher := s.poolContext.ClientsDispatcher.modify (fun d => d.connectWith inst) idx } }

/-- Line 248: the object `PoolInstanceFabric::get` returns for an instance configuration,
as the `instanceId`-th instance created. -/
def instanceFor (instanceId : Nat) (ic : CInstanceConfig) : CPoolInstance :=
  { Id := instanceId, Type_ := ic.Type_, Protocol := ic.Protocol, InstanceConfig := ic.InstanceConfig }

/-- Lines 246-263, the instance loop (the body never assigns `poolContext.Instances`). -/
def initInstances (env : Env) : List CInstanceConfig → State → Step
  | [], s => .next s
  | instanceConfig :: rest, s =>
    if env.fabricGet instanceConfig.Type_ instanceConfig.Protocol instanceConfig.InstanceConfig then
      let inst : CPoolInstance := instanceFor s.instancesCreated instanceConfig
      let s1 := { s with instancesCreated := s.instancesCreated + 1 }
      match linkBackends inst instanceConfig.Backends s1 with
      | .next s2 => initInstances env rest s2
      | .halt h s2 => .halt h s2
    else .halt .return1 s

/-- Line 245: `poolContext.Instances.resize(config.Instances.size())`. -/
def resizeInstances (n : Nat) (s : State) : State :=
  { s with poolContext := { s.poolContext with
      Instances := s.poolContext.Instances.take n ++
        List.replicate (n - s.poolContext.Instances.length) none } }

/-- Lines 266-291: the user manager, the backends, the dispatcher polls, the HTTP server and
the worker threads are started. -/
def startAll (workers : Nat) (s : State) : State :=
  let ctx := s.poolContext
  { s with
    poolContext := { ctx with
      UserMgr := { ctx.UserMgr with Started := true }
      Backends := ctx.Backends.map (fun b => { b with Started := true })
      ClientsDispatcher := ctx.ClientsDispatcher.map (fun d => { d with Polling := true })
      HttpServer := some { Port := ctx.HttpPort, Started := true } }
    workerThreads := workers }

/-- Lines 115-264, the block "Analyze config" of `main`. -/
def analyzeConfig (env : Env) (config : CPoolFrontendConfig) : Step :=
  match smtpConfig env config (initialState config) with
  | .halt h s => .halt h s
  | .next s0 =>
    match initBackends env (totalThreadsNum env config) config.Coins 0 s0 with
    | .halt h s => .halt h s
    | .next s1 => initInstances env config.Instances (resizeInstances config.Instances.length s1)

/-- The function `main`, from the loaded configuration up to the point where it waits for
its worker threads: `.next s` is that point, `.halt .return1 s` is `return 1`. -/
def main (env : Env) (config : CPoolFrontendConfig) : Step :=
  match analyzeConfig env config with
  | .halt h s => .halt h s
  | .next s => .next (startAll (workerThreadsNum env config) s)

/-- Nothing has been started in state `s`: not the user manager, no backend, no dispatcher
poll, not the HTTP server, no worker thread. -/
def NothingStarted (s : State) : Prop :=
  s.poolContext.UserMgr.Started = false ∧
  (∀ b ∈ s.poolContext.Backends, b.Started = false) ∧
  (∀ d ∈ s.poolContext.ClientsDispatcher, d.Polling = false) ∧
  s.poolContext.HttpServer = none ∧
  s.workerThreads = 0

/-! ## Worker thread ids -/

/-- The function `InitializeWorkerThread`: `threadId = threadCounter.fetch_add(1)` on the
`std::atomic<unsigned>`; the result is the calling thread's `threadId`, which is what its
`GetWorkerThreadId()` returns from then on, and the new counter. -/
def InitializeWorkerThread (threadCounter : Nat) : Nat × Nat :=
  (threadCounter, (threadCounter + 1) % 2 ^ 32)

/-- Lines 283-291: the worker threads each call `InitializeWorkerThread` once (the only call
in `main.cpp`); `schedule` lists the workers in the order in which their atomic increments
take effect, starting from the counter value `threadCounter`.  The result pairs every worker
with the value its `GetWorkerThreadId()` returns. -/
def runWorkers : List Nat → Nat → List (Nat × Nat)
  | [], _ => []
  | worker :: rest, threadCounter =>
    (worker, (InitializeWorkerThread threadCounter).1) ::
      runWorkers rest (InitializeWorkerThread threadCounter).2

/-! ## Shutdown (lines 293-312)

From line 293 on three kinds of threads run side by side: the signal thread (lines 296-304),
the worker threads inside `asyncLoop` (line 289) and `main`, which joins the workers (lines
308-309) and returns.  A run is an interleaving of their steps and of signal deliveries; a
write of the `interrupted` flag is seen by the next read of it.  The calls `backend.stop()`
and `UserMgr->stop()` return to their caller, like the `start()` calls. -/

/-- What happens during shutdown, in the order in which it happens. -/
inductive ShutdownEvent where
  /-- The signal thread called `stop()` on `Backends[i]` (line 301). -/
  | stopCalled (i : Nat)
  /-- The call of `stop()` on `Backends[i]` returned. -/
  | stopReturned (i : Nat)
  /-- The signal thread called `UserMgr->stop()` (line 302). -/
  | userMgrStop
  /-- The signal thread called `postQuitOperation(base)` (line 303). -/
  | postQuitOperation
  /-- In worker `j`, `asyncLoop(base)` returned and the thread ended (line 289). -/
  | workerExit (j : Nat)
  /-- In `main`, `workerThreads[j].join()` returned (line 309). -/
  | join (j : Nat)
  /-- The function `main` executed `return 0` (line 312). -/
  | mainReturn
  deriving DecidableEq

/-- Where the signal thread (lines 296-304) is. -/
inductive SigPc where
  /-- In the loop `while (!interrupted) sleep_for(1s)`. -/
  | waiting
  /-- In the loop over `poolContext.Backends`, before the call of `stop()` on backend `k`
  (after the last call when `k` is the number of backends). -/
  | stopping (k : Nat)
  /-- Inside the call of `stop()` on backend `k`. -/
  | inStop (k : Nat)
  /-- After `UserMgr->stop()`, before `postQuitOperation(base)`. -/
  | quitting
  /-- After `postQuitOperation(base)`: the thread has ended. -/
  | done
  deriving DecidableEq

/-- Who takes the next step. -/
inductive Action where
  /-- A SIGINT or SIGTERM is delivered: `sigIntHandler` runs. -/
  | signal
  /-- The signal thread takes a step. -/
  | sigIntThread
  /-- Worker `j` takes a step. -/
  | worker (j : Nat)
  /-- The thread of `main` takes a step. -/
  | mainThread
  deriving DecidableEq

/-- The state of the process from line 293 on. -/
structure Running where
  /-- Number of elements of `poolContext.Backends`. -/
  backends : Nat
  /-- Value of `workerThreadsNum`. -/
  workers : Nat
  /-- The flag `interrupted`. -/
  interrupted : Bool
  /-- Position of the signal thread. -/
  sigPc : SigPc
  /-- The loop variable `i` of the join loop of `main`. -/
  joined : Nat
  /-- Whether `main` has returned. -/
  returned : Bool
  /-- The events so far, oldest first. -/
  log : List ShutdownEvent
  deriving DecidableEq

/-- Lines 293-306: the signal handlers are installed and the signal thread is started, in the
state `s` in which `main` has started everything. -/
def waitForShutdown (s : State) : Running :=
  { backends := s.poolContext.Backends.length
    workers := s.workerThreads
    interrupted := false
    sigPc := .waiting
    joined := 0
    returned := false
    log := [] }

/-- One step of the signal thread, lines 297-303. -/
def sigIntThreadStep (r : Running) : Running :=
  match r.sigPc with
  | .waiting => if r.interrupted then { r with sigPc := .stopping 0 } else r
  | .stopping k =>
    if k < r.backends then { r with sigPc := .inStop k, log := r.log ++ [.stopCalled k] }
    else { r with sigPc := .quitting, log := r.log ++ [.userMgrStop] }
  | .inStop k => { r with sigPc := .stopping (k + 1), log := r.log ++ [.stopReturned k] }
  | .quitting => { r with sigPc := .done, log := r.log ++ [.postQuitOperation] }
  | .done => r

/-- One step of worker `j`, line 289: `asyncLoop(base)` returns when its contract lets it. -/
def workerStep (env : Env) (j : Nat) (r : Running) : Running :=
  if j < r.workers ∧ ShutdownEvent.workerExit j ∉ r.log ∧
      env.asyncLoopReturns (decide (ShutdownEvent.postQuitOperation ∈ r.log)) = true then
    { r with log := r.log ++ [.workerExit j] }
  else r

/-- One step of `main`, lines 308-312: the join of worker `joined` returns once that worker
has ended; after the last join `main` returns. -/
def mainThreadStep (r : Running) : Running :=
  if r.returned then r
  else if r.joined < r.workers then
    if ShutdownEvent.workerExit r.joined ∈ r.log then
      { r with joined := r.joined + 1, log := r.log ++ [.join r.joined] }
    else r
  else { r with returned := true, log := r.log ++ [.mainReturn] }

/-- One step of the process; a thread that cannot proceed leaves the state as it is. -/
def step (env : Env) (a : Action) (r : Running) : Running :=
  match a with
  | .signal => { r with interrupted := true }
  | .sigIntThread => sigIntThreadStep r
  | .worker j => workerStep env j r
  | .mainThread => mainThreadStep r

/-- The state after the steps of `schedule`, in order. -/
def run (env : Env) : List Action → Running → Running
  | [], r => r
  | a :: rest, r => run env rest (step env a r)

/-- Number of backends on which the signal thread has called `stop()`. -/
def SigPc.called (n : Nat) : SigPc → Nat
  | .waiting => 0
  | .stopping k => k
  | .inStop k => k + 1
  | .quitting => n
  | .done => n

/-- Number of backends whose `stop()` has returned. -/
def SigPc.stopped (n : Nat) : SigPc → Nat
  | .waiting => 0
  | .stopping k => k
  | .inStop k => k
  | .quitting => n
  | .done => n

/-- Whether the signal thread has called `UserMgr->stop()`. -/
def SigPc.userMgrStopped : SigPc → Bool
  | .quitting => true
  | .done => true
  | _ => false

/-- Whether the signal thread has called `postQuitOperation(base)`. -/
def SigPc.quitPosted : SigPc → Bool
  | .done => true
  | _ => false

/-- The loop index of the signal thread is within the backends. -/
def SigPc.InRange (n : Nat) : SigPc → Prop
  | .stopping k => k ≤ n
  | .inStop k => k < n
  | _ => True

/-- Number of steps the signal thread still has to take. -/
def SigPc.remaining (n : Nat) : SigPc → Nat
  | .waiting => 2 * n + 3
  | .stopping k => 2 * (n - k) + 2
  | .inStop k => 2 * (n - k) + 1
  | .quitting => 1
  | .done => 0

/-- The relation between the log and the positions of the threads that holds in every state
of a run with `n` backends and `w` workers. -/
structure ShutdownInv (env : Env) (n w : Nat) (r : Running) : Prop where
  backends : r.backends = n
  workers : r.workers = w
  inRange : r.sigPc.InRange n
  called : ∀ i, ShutdownEvent.stopCalled i ∈ r.log ↔ i < r.sigPc.called n
  stopped : ∀ i, ShutdownEvent.stopReturned i ∈ r.log ↔ i < r.sigPc.stopped n
  userMgr : ShutdownEvent.userMgrStop ∈ r.log ↔ r.sigPc.userMgrStopped = true
  quit : ShutdownEvent.postQuitOperation ∈ r.log ↔ r.sigPc.quitPosted = true
  exitAfterQuit : env.asyncLoopReturns false = false →
    ∀ j, ShutdownEvent.workerExit j ∈ r.log → ShutdownEvent.postQuitOperation ∈ r.log
  joins : ∀ j, ShutdownEvent.join j ∈ r.log ↔ j < r.joined
  joinedExited : ∀ j, j < r.joined → ShutdownEvent.workerExit j ∈ r.log
  joinedLe : r.joined ≤ w
  mainReturn : ShutdownEvent.mainReturn ∈ r.log ↔ r.returned = true
  returnedAll : r.returned = true → r.joined = w
  interruptedOn : r.sigPc ≠ .waiting → r.interrupted = true

/-- A schedule for the sample configuration (one backend, two workers): a signal arrives,
the signal thread runs to its end, the workers end, `main` joins them and returns. -/
def sampleSchedule : List Action :=
  [.signal, .sigIntThread, .sigIntThread, .sigIntThread, .sigIntThread, .sigIntThread,
   .worker 1, .worker 0, .mainThread, .mainThread, .mainThread]

/-! ## Vocabulary of the statements -/

/-- The backend `main` constructs for a coin from its configuration `bc`, its coin info and
the dispatcher with identity `dispatcherId`. -/
def backendFor (bc : PoolBackendConfig) (coinInfo : CCoinInfo) (dispatcherId : Nat) : PoolBackend :=
  { Config := bc, CoinInfo := coinInfo, Dispatcher := dispatcherId, Started := false }

/-- The dispatcher with identity `dispatcherId` after the node loop over `nodes`. -/
def dispatcherFor (coinInfo : CCoinInfo) (total dispatcherId : Nat) (nodes : List CNodeConfig) :
    CNetworkClientDispatcher :=
  { newDispatcher dispatcherId coinInfo total with Clients := nodes.map (clientOf coinInfo) }

/-- What a successful run of the coin loop over `coins`, started in state `s` at index `idx`,
has done when it ends in state `s1`. -/
structure CoinsBuilt (env : Env) (total : Nat) (coins : List CCoinConfig) (s s1 : State) : Prop where
  dispatchersCreated : s1.dispatchersCreated = s.dispatchersCreated + coins.length
  instancesCreated : s1.instancesCreated = s.instancesCreated
  workerThreads : s1.workerThreads = s.workerThreads
  isMaster : s1.poolContext.IsMaster = s.poolContext.IsMaster
  databasePath : s1.poolContext.DatabasePath = s.poolContext.DatabasePath
  httpPort : s1.poolContext.HttpPort = s.poolContext.HttpPort
  instances : s1.poolContext.Instances = s.poolContext.Instances
  httpServer : s1.poolContext.HttpServer = s.poolContext.HttpServer
  userMgrStarted : s1.poolContext.UserMgr.Started = s.poolContext.UserMgr.Started
  userMgrSmtp : s1.poolContext.UserMgr.Smtp = s.poolContext.UserMgr.Smtp
  coinList : s1.poolContext.CoinList =
    s.poolContext.CoinList ++ coins.map (fun c => env.coinLibraryGet c.Name)
  built : ∃ nb nd,
    s1.poolContext.Backends = s.poolContext.Backends ++ nb ∧
    s1.poolContext.ClientsDispatcher = s.poolContext.ClientsDispatcher ++ nd ∧
    nb.length = coins.length ∧ nd.length = coins.length ∧
    ∀ i c, coins[i]? = some c →
      (env.coinLibraryGet c.Name).Name.isEmpty = false ∧
      (∀ node ∈ c.Nodes, node.Type_ = "bitcoinrpc") ∧
      ∃ bc, makeBackendConfig env s.poolContext.IsMaster s.poolContext.DatabasePath c
          (env.coinLibraryGet c.Name) = some bc ∧
        nb[i]? = some (backendFor bc (env.coinLibraryGet c.Name) (s.dispatchersCreated + i)) ∧
        nd[i]? = some (dispatcherFor (env.coinLibraryGet c.Name) total (s.dispatchersCreated + i)
          c.Nodes)

/-- The dispatcher `d` after `connectWith` calls for the instances `extra`. -/
def CNetworkClientDispatcher.withLinks (d : CNetworkClientDispatcher) (extra : List CPoolInstance) :
    CNetworkClientDispatcher :=
  { d with Linked := d.Linked ++ extra }

/-- The dispatcher list `ds1` is `ds` after further `connectWith` calls: the same
dispatchers, each with possibly more linked instances. -/
def LinkExt (ds ds1 : List CNetworkClientDispatcher) : Prop :=
  ds1.length = ds.length ∧
  ∀ (i : Nat) (d : CNetworkClientDispatcher), ds[i]? = some d →
    ∃ extra, ds1[i]? = some (d.withLinks extra)

/-- The state `s` with its dispatcher list and instance counter replaced. -/
def State.relinked (s : State) (ds : List CNetworkClientDispatcher) (n : Nat) : State :=
  { s with
    poolContext := { s.poolContext with ClientsDispatcher := ds }
    instancesCreated := n }

/-- The state `s` with the user manager's SMTP settings replaced. -/
def State.withSmtp (s : State) (smtp : Option SmtpSettings) : State :=
  { s with poolContext := { s.poolContext with UserMgr := { s.poolContext.UserMgr with Smtp := smtp } } }

/-- The run takes the path of the SMTP block on which `gethostbyname` has returned null:
SMTP is enabled, the server text contains a colon, and the lookup of the text before the
first colon fails. -/
def smtpLookupFails (env : Env) (config : CPoolFrontendConfig) : Bool :=
  config.SmtpEnabled &&
    match strchr config.SmtpServer ':' with
    | none => false
    | some (hostName, _) => (env.gethostbyname hostName).isNone

/-- What holds of the state `s` in which the block "Analyze config" ends when it ends
without `return 1` (a successful initialisation). -/
structure Initialised (env : Env) (config : CPoolFrontendConfig) (s : State) : Prop where
  backendsLength : s.poolContext.Backends.length = config.Coins.length
  dispatchersLength : s.poolContext.ClientsDispatcher.length = config.Coins.length
  coinList : s.poolContext.CoinList = config.Coins.map (fun c => env.coinLibraryGet c.Name)
  coin : ∀ i c, config.Coins[i]? = some c →
    (env.coinLibraryGet c.Name).Name.isEmpty = false ∧
    (∀ node ∈ c.Nodes, node.Type_ = "bitcoinrpc") ∧
    ∃ bc extra,
      makeBackendConfig env config.IsMaster config.DbPath c (env.coinLibraryGet c.Name) = some bc ∧
      s.poolContext.Backends[i]? = some (backendFor bc (env.coinLibraryGet c.Name) i) ∧
      s.poolContext.ClientsDispatcher[i]? = some
        ((dispatcherFor (env.coinLibraryGet c.Name) (totalThreadsNum env config) i c.Nodes).withLinks
          extra)
  mapSound : ∀ k i, mapFind s.poolContext.CoinIdxMap k = some i →
    ∃ c, config.Coins[i]? = some c ∧ c.Name = k
  mapComplete : ∀ c ∈ config.Coins, (mapFind s.poolContext.CoinIdxMap c.Name).isSome = true
  linked : ∀ j ic, config.Instances[j]? = some ic →
    env.fabricGet ic.Type_ ic.Protocol ic.InstanceConfig = true ∧
    ∀ name ∈ ic.Backends, ∃ idx d,
      mapFind s.poolContext.CoinIdxMap name = some idx ∧
      s.poolContext.ClientsDispatcher[idx]? = some d ∧
      instanceFor j ic ∈ d.Linked
  instances : s.poolContext.Instances = List.replicate config.Instances.length none
  nothingStarted : NothingStarted s
  smtpOk : smtpLookupFails env config = false

/-! ## Sample inputs -/

/-- A coin the sample coin library knows. -/
def sampleCoinInfo : CCoinInfo := { Name := "BTC", RationalPartSize := 8, PayoutAddressType := 1 }

/-- The info the sample coin library returns for every other name. -/
def unknownCoinInfo : CCoinInfo := { Name := "", RationalPartSize := 0, PayoutAddressType := 0 }

/-- A sample environment: the coin library knows "BTC" only, an address is valid when it is
not empty, every non-empty amount parses, the fabric creates "stratum" instances only, only
"localhost" resolves (to 127.0.0.1), the unsigned type of the timing members has 32 bits, and
`asyncLoop` returns exactly when the reactor has been asked to quit. -/
def sampleEnv : Env :=
  { coinLibraryGet := fun name => if name = "BTC" then sampleCoinInfo else unknownCoinInfo
    checkAddress := fun _ address _ => address != ""
    parseMoneyValue := fun text _ => if text = "" then none else some 100000000
    fabricGet := fun type _ _ => type == "stratum"
    gethostbyname := fun name => if name = "localhost" then some { h_addr := some 16777343 } else none
    atoi := fun text => if text = "25" then 25 else 0
    htons := fun port => (port % 256) * 256 + port / 256
    hardwareConcurrency := 8
    uintBits := 32
    asyncLoopReturns := fun quitPosted => quitPosted }

/-- A coin configuration for "BTC" with the given fees, nodes and payout interval. -/
def sampleCoin (fees : List CFeeConfig) (nodes : List CNodeConfig) (payoutInterval : Nat) :
    CCoinConfig :=
  { Name := "BTC"
    Nodes := nodes
    Fees := fees
    RequiredConfirmations := 10
    DefaultPayoutThreshold := "1"
    MinimalAllowedPayout := "0.01"
    KeepRoundTime := 3
    KeepStatsTime := 2
    ConfirmationsCheckInterval := 10
    PayoutInterval := payoutInterval
    BalanceCheckInterval := 3
    StatisticCheckInterval := 1 }

/-- Two nodes of the supported type. -/
def sampleNodes : List CNodeConfig :=
  [{ Type_ := "bitcoinrpc", Address := "127.0.0.1:8332", Login := "user", Password := "pw" },
   { Type_ := "bitcoinrpc", Address := "10.0.0.2:8332", Login := "user2", Password := "pw2" }]

/-- A configuration with the given coins and instances, two worker threads and the given SMTP
switch and server. -/
def sampleConfigWith (coins : List CCoinConfig) (instances : List CInstanceConfig)
    (smtpEnabled : Bool) (smtpServer : String) : CPoolFrontendConfig :=
  { IsMaster := true
    DbPath := "/var/pool"
    HttpPort := 18880
    WorkerThreadsNum := 2
    PoolName := "pool"
    PoolHostAddress := "pool.example"
    PoolActivateLinkPrefix := "/activate"
    SmtpEnabled := smtpEnabled
    SmtpServer := smtpServer
    SmtpLogin := "mailer"
    SmtpPassword := "secret"
    SmtpSenderAddress := "pool@pool.example"
    SmtpUseSmtps := false
    SmtpUseStartTls := true
    Coins := coins
    Instances := instances }

/-- An instance configuration linked with the given coins. -/
def sampleInstance (name : String) (backends : List String) : CInstanceConfig :=
  { Name := name, Type_ := "stratum", Protocol := "stratum", Backends := backends,
    InstanceConfig := "port 3456" }

/-- A valid configuration: one coin with a 1 % fee and two nodes, one instance linked with
it, SMTP disabled. -/
def sampleConfig : CPoolFrontendConfig :=
  sampleConfigWith [sampleCoin [{ Address := "1PoolFee", Percentage := .finite 1 }] sampleNodes 60]
    [sampleInstance "main" ["BTC"]] false ""

/-- The state in which `main` waits for its workers on the valid sample configuration. -/
def sampleFinal : State := (main sampleEnv sampleConfig).state

/-- The sample configuration with SMTP enabled and a server whose name does not resolve. -/
def smtpFailConfig : CPoolFrontendConfig :=
  { sampleConfig with SmtpEnabled := true, SmtpServer := "mail.invalid:25" }

/-- A configuration whose single coin has two fee entries of 60 % each. -/
def twoFeesConfig : CPoolFrontendConfig :=
  sampleConfigWith
    [sampleCoin [{ Address := "1PoolFee", Percentage := .finite 60 },
                 { Address := "1Operator", Percentage := .finite 60 }] sampleNodes 60]
    [sampleInstance "main" ["BTC"]] false ""

/-- A configuration whose single coin has a payout interval of 72 minutes. -/
def longPayoutConfig : CPoolFrontendConfig :=
  sampleConfigWith [sampleCoin [] sampleNodes 72] [] false ""

/-- A configuration with one coin that asks for `2^32 - 1` worker threads. -/
def manyWorkersConfig : CPoolFrontendConfig :=
  { sampleConfigWith [sampleCoin [] sampleNodes 60] [] false "" with WorkerThreadsNum := 4294967295 }

/-- The sample environment on a platform where the timing members have 64 bits. -/
def sampleEnv64 : Env := { sampleEnv with uintBits := 64 }

/-- A configuration whose single coin has a payout interval of 307445734562 minutes. -/
def hugePayoutConfig : CPoolFrontendConfig :=
  sampleConfigWith [sampleCoin [] sampleNodes 307445734562] [] false ""

/-- A configuration with the coin "BTC" and two instances: the first is linked with the
unconfigured coin "LTC", the second with "BTC". -/
def skippedLinkConfig : CPoolFrontendConfig :=
  sampleConfigWith [sampleCoin [] sampleNodes 60]
    [sampleInstance "first" ["LTC"], sampleInstance "second" ["BTC"]] false ""

/-- The state in which `main` returns on `skippedLinkConfig`. -/
def skippedLinkFinal : State := (main sampleEnv skippedLinkConfig).state

/-- A configuration whose only coin is unknown to the coin library, with SMTP enabled and a
server whose name does not resolve. -/
def unknownCoinSmtpFailConfig : CPoolFrontendConfig :=
  sampleConfigWith [{ sampleCoin [] sampleNodes 60 with Name := "DOGE" }] [] true "mail.invalid:25"

/-- A configuration whose only coin is unknown to the coin library, SMTP disabled. -/
def unknownCoinConfig : CPoolFrontendConfig :=
  sampleConfigWith [{ sampleCoin [] sampleNodes 60 with Name := "DOGE" }] [] false ""

/-- A node of an unsupported type. -/
def foreignNode : CNodeConfig :=
  { Type_ := "ethrpc", Address := "10.0.0.3:8545", Login := "user", Password := "pw" }

/-- A configuration whose only coin has a node of an unsupported type, with SMTP enabled and
a server whose name does not resolve. -/
def foreignNodeSmtpFailConfig : CPoolFrontendConfig :=
  sampleConfigWith [sampleCoin [] [foreignNode] 60] [] true "mail.invalid:25"

/-- A configuration whose only coin has a node of an unsupported type, SMTP disabled. -/
def foreignNodeConfig : CPoolFrontendConfig :=
  sampleConfigWith [sampleCoin [] [foreignNode] 60] [] false ""

/-- A configuration with the coin "BTC" and one instance linked with the unconfigured coin
"LTC", with SMTP enabled and a server whose name does not resolve. -/
def unknownLinkSmtpFailConfig : CPoolFrontendConfig :=
  sampleConfigWith [sampleCoin [] sampleNodes 60] [sampleInstance "main" ["LTC"]] true
    "mail.invalid:25"

/-- A configuration with the coin "BTC" and one instance linked with the unconfigured coin
"LTC", SMTP disabled. -/
def unknownLinkConfig : CPoolFrontendConfig :=
  sampleConfigWith [sampleCoin [] sampleNodes 60] [sampleInstance "main" ["LTC"]] false ""

/-! ## Auxiliary facts -/

theorem find_filter_ne (m : List (String × Nat)) (key k : String) (hk : ¬ k = key) :
    List.find? (fun e => e.1 == k) (m.filter (fun e => e.1 != key)) =
      List.find? (fun e => e.1 == k) m := by
  induction m with
  | nil => rfl
  | cons e rest ih =>
    by_cases he : e.1 = key
    · have hf : (e.1 != key) = false := by simp [he]
      have hb : (e.1 == k) = false := by
        simp only [beq_eq_false_iff_ne, ne_eq]; rw [he]; exact fun h => hk h.symm
      simp only [List.filter_cons, List.find?_cons, hf, hb, Bool.false_eq_true, if_false, ih]
    · have hf : (e.1 != key) = true := by simp [he]
      simp only [List.filter_cons, List.find?_cons, hf, if_true, ih]

theorem mapFind_mapAssign (m : List (String × Nat)) (key : String) (value : Nat) (k : String) :
    mapFind (mapAssign m key value) k = if k = key then some value else mapFind m k := by
  unfold mapFind mapAssign
  by_cases hk : k = key
  · subst hk; simp
  · have hb : (key == k) = false := by simpa using fun h => hk h.symm
    simp only [List.find?_cons, hb, hk, if_false]
    rw [find_filter_ne m key k hk]

theorem poolFeeLoop_some {env : Env} {coinInfo : CCoinInfo} {fees : List CFeeConfig}
    {poolFee : List PoolFeeEntry} (h : poolFeeLoop env coinInfo fees = some poolFee) :
    poolFee = fees.map (fun fee => { Address := fee.Address, Percentage := fee.Percentage }) ∧
    ∀ fee ∈ fees, env.checkAddress coinInfo fee.Address coinInfo.PayoutAddressType = true ∧
      fee.Percentage.gt hundred = false := by
  induction fees generalizing poolFee with
  | nil => simp [poolFeeLoop] at h; simp [h]
  | cons fee rest ih =>
    simp only [poolFeeLoop] at h
    split at h
    · simp at h
    · split at h
      · simp at h
      · rename_i h1 h2
        cases hr : poolFeeLoop env coinInfo rest with
        | none => simp [hr] at h
        | some entries =>
          simp [hr] at h
          obtain ⟨e1, e2⟩ := ih hr
          subst h
          refine ⟨by simp [e1], ?_⟩
          intro f hf
          rcases List.mem_cons.mp hf with rfl | hf
          · exact ⟨by simpa using h1, by simpa using h2⟩
          · exact e2 f hf

theorem nodeLoop_some {coinInfo : CCoinInfo} {nodes : List CNodeConfig}
    {d d1 : CNetworkClientDispatcher} (h : nodeLoop coinInfo nodes d = some d1) :
    d1 = { d with Clients := d.Clients ++ nodes.map (clientOf coinInfo) } ∧
    ∀ node ∈ nodes, node.Type_ = "bitcoinrpc" := by
  induction nodes generalizing d with
  | nil => simp [nodeLoop] at h; simp [← h]
  | cons node rest ih =>
    simp only [nodeLoop] at h
    split at h
    · rename_i ht
      obtain ⟨e1, e2⟩ := ih h
      refine ⟨?_, ?_⟩
      · rw [e1]; simp [CNetworkClientDispatcher.addClient, clientOf]
      · intro n hn
        rcases List.mem_cons.mp hn with rfl | hn
        · exact ht
        · exact e2 n hn
    · simp at h

theorem initBackend_next {env : Env} {total coinIdx : Nat} {c : CCoinConfig} {s s1 : State}
    (h : initBackend env total coinIdx c s = .next s1) :
    (env.coinLibraryGet c.Name).Name.isEmpty = false ∧
    (∀ node ∈ c.Nodes, node.Type_ = "bitcoinrpc") ∧
    ∃ bc, makeBackendConfig env s.poolContext.IsMaster s.poolContext.DatabasePath c
        (env.coinLibraryGet c.Name) = some bc ∧
      s1 = { s with
        dispatchersCreated := s.dispatchersCreated + 1
        poolContext := registerBackend s.poolContext c.Name coinIdx (env.coinLibraryGet c.Name) bc
          (dispatcherFor (env.coinLibraryGet c.Name) total s.dispatchersCreated c.Nodes) } := by
  unfold initBackend at h
  simp only at h
  split at h
  · cases h
  · rename_i hname
    split at h
    · cases h
    · rename_i bc hbc
      split at h
      · cases h
      · rename_i d hd
        obtain ⟨e1, e2⟩ := nodeLoop_some hd
        refine ⟨by simpa using hname, e2, bc, hbc, ?_⟩
        cases h
        rw [e1]
        simp [dispatcherFor, newDispatcher]

theorem initBackend_halt {env : Env} {total coinIdx : Nat} {c : CCoinConfig} {s s1 : State}
    {hlt : Halt} (h : initBackend env total coinIdx c s = .halt hlt s1) :
    hlt = .return1 ∧ s1.poolContext = s.poolContext ∧ s1.workerThreads = s.workerThreads := by
  unfold initBackend at h
  simp only at h
  split at h
  · cases h; simp
  · split at h
    · cases h; simp
    · split at h
      · cases h; simp
      · cases h

theorem initBackends_next {env : Env} {total : Nat} :
    ∀ (coins : List CCoinConfig) (idx : Nat) (s s1 : State),
      initBackends env total coins idx s = .next s1 → CoinsBuilt env total coins s s1 := by
  intro coins
  induction coins with
  | nil =>
    intro idx s s1 h
    simp only [initBackends] at h
    cases h
    exact ⟨rfl, rfl, rfl, rfl, rfl, rfl, rfl, rfl, rfl, rfl, by simp, [], [], by simp⟩
  | cons c rest ih =>
    intro idx s s1 h
    simp only [initBackends] at h
    split at h
    · rename_i s0 hs0
      obtain ⟨hn, hnodes, bc, hbc, rfl⟩ := initBackend_next hs0
      have r := ih (idx + 1) _ s1 h
      obtain ⟨nb, nd, hb, hd, hlb, hld, hpt⟩ := r.built
      refine ⟨?_, r.instancesCreated, r.workerThreads, r.isMaster, r.databasePath, r.httpPort,
        r.instances, r.httpServer, r.userMgrStarted, r.userMgrSmtp, ?_, ?_⟩
      · rw [r.dispatchersCreated]; simp; omega
      · rw [r.coinList]; simp [registerBackend]
      · refine ⟨backendFor bc (env.coinLibraryGet c.Name) s.dispatchersCreated :: nb,
          dispatcherFor (env.coinLibraryGet c.Name) total s.dispatchersCreated c.Nodes :: nd,
          ?_, ?_, by simp [hlb], by simp [hld], ?_⟩
        · rw [hb]; simp [registerBackend, backendFor, dispatcherFor, newDispatcher]
        · rw [hd]; simp [registerBackend]
        · intro i ci hi
          cases i with
          | zero =>
            simp only [List.getElem?_cons_zero, Option.some.injEq] at hi
            subst hi
            exact ⟨hn, hnodes, bc, hbc, by simp, by simp⟩
          | succ j =>
            simp only [List.getElem?_cons_succ] at hi
            obtain ⟨h1, h2, bc2, hbc2, h3, h4⟩ := hpt j ci hi
            refine ⟨h1, h2, bc2, ?_, ?_, ?_⟩
            · simpa [registerBackend] using hbc2
            · simp only [List.getElem?_cons_succ]; rw [h3]
              simp [Nat.add_assoc, Nat.add_comm 1 j]
            · simp only [List.getElem?_cons_succ]; rw [h4]
              simp [Nat.add_assoc, Nat.add_comm 1 j]
    · cases h

theorem initBackends_mapFind {env : Env} {total : Nat} :
    ∀ (coins : List CCoinConfig) (idx : Nat) (s s1 : State),
      initBackends env total coins idx s = .next s1 →
      ∀ k i, mapFind s1.poolContext.CoinIdxMap k = some i →
        mapFind s.poolContext.CoinIdxMap k = some i ∨
        ∃ j c, coins[j]? = some c ∧ c.Name = k ∧ i = idx + j := by
  intro coins
  induction coins with
  | nil =>
    intro idx s s1 h k i hk
    simp only [initBackends] at h
    cases h
    exact Or.inl hk
  | cons c rest ih =>
    intro idx s s1 h k i hk
    simp only [initBackends] at h
    split at h
    · rename_i s0 hs0
      obtain ⟨_, _, bc, _, rfl⟩ := initBackend_next hs0
      rcases ih (idx + 1) _ s1 h k i hk with h1 | ⟨j, cj, hj, hname, hi⟩
      · simp only [registerBackend, mapFind_mapAssign] at h1
        split at h1
        · rename_i hkc
          right
          refine ⟨0, c, by simp, hkc.symm, ?_⟩
          simpa using h1.symm
        · exact Or.inl h1
      · right
        exact ⟨j + 1, cj, by simpa using hj, hname, by omega⟩
    · cases h

theorem initBackends_mapFind_isSome {env : Env} {total : Nat} :
    ∀ (coins : List CCoinConfig) (idx : Nat) (s s1 : State),
      initBackends env total coins idx s = .next s1 →
      ∀ k, ((mapFind s.poolContext.CoinIdxMap k).isSome = true ∨ k ∈ coins.map (fun c => c.Name)) →
        (mapFind s1.poolContext.CoinIdxMap k).isSome = true := by
  intro coins
  induction coins with
  | nil =>
    intro idx s s1 h k hk
    simp only [initBackends] at h
    cases h
    simpa using hk
  | cons c rest ih =>
    intro idx s s1 h k hk
    simp only [initBackends] at h
    split at h
    · rename_i s0 hs0
      obtain ⟨_, _, bc, _, rfl⟩ := initBackend_next hs0
      apply ih (idx + 1) _ s1 h k
      simp only [registerBackend, mapFind_mapAssign]
      by_cases hkc : k = c.Name
      · left; simp [hkc]
      · rcases hk with hk | hk
        · left; simpa [hkc] using hk
        · right
          simp only [List.map_cons, List.mem_cons] at hk
          rcases hk with hk | hk
          · exact absurd hk hkc
          · exact hk
    · cases h

theorem initBackend_nothingStarted {env : Env} {total coinIdx : Nat} {c : CCoinConfig} {s : State}
    (h : NothingStarted s) : NothingStarted (initBackend env total coinIdx c s).state := by
  cases hr : initBackend env total coinIdx c s with
  | next s1 =>
    obtain ⟨_, _, bc, _, rfl⟩ := initBackend_next hr
    obtain ⟨h1, h2, h3, h4, h5⟩ := h
    refine ⟨by simpa [Step.state, registerBackend] using h1, ?_, ?_,
      by simpa [Step.state, registerBackend] using h4, by simpa [Step.state] using h5⟩
    · intro b hb
      simp only [Step.state, registerBackend, List.mem_append, List.mem_singleton] at hb
      rcases hb with hb | rfl
      · exact h2 b hb
      · rfl
    · intro d hd
      simp only [Step.state, registerBackend, List.mem_append, List.mem_singleton] at hd
      rcases hd with hd | rfl
      · exact h3 d hd
      · rfl
  | halt hlt s1 =>
    obtain ⟨_, e1, e2⟩ := initBackend_halt hr
    unfold NothingStarted
    simp only [Step.state, e1, e2]
    exact h

theorem initBackends_nothingStarted {env : Env} {total : Nat} :
    ∀ (coins : List CCoinConfig) (idx : Nat) (s : State),
      NothingStarted s → NothingStarted (initBackends env total coins idx s).state := by
  intro coins
  induction coins with
  | nil => intro idx s h; simpa [initBackends, Step.state] using h
  | cons c rest ih =>
    intro idx s h
    have h0 := @initBackend_nothingStarted env total idx c s h
    simp only [initBackends]
    split
    · rename_i s0 hs0
      rw [hs0] at h0
      exact ih (idx + 1) s0 h0
    · rename_i hlt s0 hs0
      rw [hs0] at h0
      exact h0

theorem initBackends_halt {env : Env} {total : Nat} :
    ∀ (coins : List CCoinConfig) (idx : Nat) (s s1 : State) (hlt : Halt),
      initBackends env total coins idx s = .halt hlt s1 → hlt = .return1 := by
  intro coins
  induction coins with
  | nil => intro idx s s1 hlt h; simp [initBackends] at h
  | cons c rest ih =>
    intro idx s s1 hlt h
    simp only [initBackends] at h
    split at h
    · exact ih _ _ _ _ h
    · rename_i h0 s0 hs0
      cases h
      exact (initBackend_halt hs0).1

theorem makeBackendConfig_some {env : Env} {isMaster : Bool} {dbPath : String} {c : CCoinConfig}
    {coinInfo : CCoinInfo} {bc : PoolBackendConfig}
    (h : makeBackendConfig env isMaster dbPath c coinInfo = some bc) :
    ∃ poolFee, poolFeeLoop env coinInfo c.Fees = some poolFee ∧ bc.PoolFee = poolFee ∧
      bc.KeepRoundTime = mulU env.uintBits (mulU env.uintBits c.KeepRoundTime 24) 3600 ∧
      bc.KeepStatsTime = mulU env.uintBits c.KeepStatsTime 60 ∧
      bc.ConfirmationsCheckInterval =
        mulU env.uintBits (mulU env.uintBits c.ConfirmationsCheckInterval 60) 1000000 ∧
      bc.PayoutInterval = mulU env.uintBits (mulU env.uintBits c.PayoutInterval 60) 1000000 ∧
      bc.BalanceCheckInterval =
        mulU env.uintBits (mulU env.uintBits c.BalanceCheckInterval 60) 1000000 ∧
      bc.StatisticCheckInterval =
        mulU env.uintBits (mulU env.uintBits c.StatisticCheckInterval 60) 1000000 := by
  unfold makeBackendConfig at h
  split at h
  · cases h
  · split at h
    · cases h
    · simp only at h
      split at h
      · cases h
      · rename_i pf hpf
        cases h
        exact ⟨pf, hpf, rfl, rfl, rfl, rfl, rfl, rfl, rfl⟩

theorem initBackends_reject {env : Env} {total : Nat} :
    ∀ (coins : List CCoinConfig) (idx : Nat) (s : State) (k : Nat) (c : CCoinConfig),
      coins[k]? = some c →
      (∀ t i s0 s1, initBackend env t i c s0 ≠ .next s1) →
      ∃ s1, initBackends env total coins idx s = .halt .return1 s1 ∧
        s1.poolContext.Backends.length ≤ s.poolContext.Backends.length + k := by
  intro coins
  induction coins with
  | nil => intro idx s k c hk; simp at hk
  | cons c0 rest ih =>
    intro idx s k c hk hrej
    simp only [initBackends]
    cases hr : initBackend env total idx c0 s with
    | halt hlt s0 =>
      obtain ⟨e0, e1, _⟩ := initBackend_halt hr
      subst e0
      exact ⟨s0, rfl, by rw [e1]; omega⟩
    | next s0 =>
      cases k with
      | zero =>
        simp only [List.getElem?_cons_zero, Option.some.injEq] at hk
        subst hk
        exact absurd hr (hrej _ _ _ _)
      | succ j =>
        simp only [List.getElem?_cons_succ] at hk
        obtain ⟨s1, e1, e2⟩ := ih (idx + 1) s0 j c hk hrej
        refine ⟨s1, e1, ?_⟩
        obtain ⟨_, _, bc, _, rfl⟩ := initBackend_next hr
        simp [registerBackend] at e2
        omega

theorem withLinks_nil (d : CNetworkClientDispatcher) : d.withLinks [] = d := by
  simp [CNetworkClientDispatcher.withLinks]

theorem withLinks_withLinks (d : CNetworkClientDispatcher) (e1 e2 : List CPoolInstance) :
    (d.withLinks e1).withLinks e2 = d.withLinks (e1 ++ e2) := by
  simp [CNetworkClientDispatcher.withLinks, List.append_assoc]

theorem connectWith_eq (d : CNetworkClientDispatcher) (inst : CPoolInstance) :
    d.connectWith inst = d.withLinks [inst] := rfl

theorem linkExt_refl (ds : List CNetworkClientDispatcher) : LinkExt ds ds :=
  ⟨rfl, fun _ d hd => ⟨[], by rw [withLinks_nil]; exact hd⟩⟩

theorem linkExt_trans {ds ds1 ds2 : List CNetworkClientDispatcher} (h1 : LinkExt ds ds1)
    (h2 : LinkExt ds1 ds2) : LinkExt ds ds2 := by
  refine ⟨h2.1.trans h1.1, ?_⟩
  intro i d hd
  obtain ⟨e1, he1⟩ := h1.2 i d hd
  obtain ⟨e2, he2⟩ := h2.2 i _ he1
  exact ⟨e1 ++ e2, by rw [← withLinks_withLinks]; exact he2⟩

theorem linkExt_modify (ds : List CNetworkClientDispatcher) (inst : CPoolInstance) (idx : Nat) :
    LinkExt ds (ds.modify (fun d => d.connectWith inst) idx) := by
  refine ⟨by simp, ?_⟩
  intro i d hd
  rw [List.getElem?_modify, hd]
  by_cases hi : idx = i
  · exact ⟨[inst], by simp [hi, connectWith_eq]⟩
  · exact ⟨[], by simp [hi, withLinks_nil]⟩

theorem linkBackends_frame (inst : CPoolInstance) :
    ∀ (names : List String) (s : State),
      ∃ ds, (linkBackends inst names s).state = s.relinked ds s.instancesCreated ∧
        LinkExt s.poolContext.ClientsDispatcher ds := by
  intro names
  induction names with
  | nil => intro s; exact ⟨_, rfl, linkExt_refl _⟩
  | cons name rest ih =>
    intro s
    simp only [linkBackends]
    split
    · exact ⟨_, rfl, linkExt_refl _⟩
    · rename_i idx hidx
      obtain ⟨ds, e1, e2⟩ := ih { s with poolContext := { s.poolContext with
        ClientsDispatcher := s.poolContext.ClientsDispatcher.modify (fun d => d.connectWith inst) idx } }
      refine ⟨ds, ?_, linkExt_trans (linkExt_modify _ inst idx) e2⟩
      rw [e1]
      rfl

theorem linkBackends_halt (inst : CPoolInstance) :
    ∀ (names : List String) (s s1 : State) (hlt : Halt),
      linkBackends inst names s = .halt hlt s1 → hlt = .return1 := by
  intro names
  induction names with
  | nil => intro s s1 hlt h; simp [linkBackends] at h
  | cons name rest ih =>
    intro s s1 hlt h
    simp only [linkBackends] at h
    split at h
    · cases h; rfl
    · exact ih _ _ _ h

theorem linkBackends_next (inst : CPoolInstance) :
    ∀ (names : List String) (s s1 : State),
      linkBackends inst names s = .next s1 →
      ∀ name ∈ names, ∃ idx, mapFind s.poolContext.CoinIdxMap name = some idx ∧
        ∀ d, s.poolContext.ClientsDispatcher[idx]? = some d →
          ∃ extra, s1.poolContext.ClientsDispatcher[idx]? = some (d.withLinks extra) ∧
            inst ∈ extra := by
  intro names
  induction names with
  | nil => intro s s1 _ name hn; simp at hn
  | cons n0 rest ih =>
    intro s s1 h name hn
    simp only [linkBackends] at h
    split at h
    · cases h
    · rename_i idx hidx
      rcases List.mem_cons.mp hn with rfl | hn
      · refine ⟨idx, hidx, ?_⟩
        intro d hd
        obtain ⟨ds, e1, e2⟩ := linkBackends_frame inst rest { s with poolContext := { s.poolContext with
          ClientsDispatcher := s.poolContext.ClientsDispatcher.modify (fun d => d.connectWith inst) idx } }
        rw [h] at e1
        have hm : (s.poolContext.ClientsDispatcher.modify (fun d => d.connectWith inst) idx)[idx]? =
            some (d.withLinks [inst]) := by
          rw [List.getElem?_modify_eq, hd]; rfl
        obtain ⟨extra, he⟩ := e2.2 idx _ hm
        refine ⟨[inst] ++ extra, ?_, by simp⟩
        simp only [Step.state] at e1
        rw [e1, ← withLinks_withLinks]
        exact he
      · obtain ⟨i, hi, hrest⟩ := ih _ s1 h name hn
        refine ⟨i, hi, ?_⟩
        intro d hd
        obtain ⟨e0, he0⟩ := (linkExt_modify s.poolContext.ClientsDispatcher inst idx).2 i d hd
        obtain ⟨extra, he, hin⟩ := hrest _ he0
        exact ⟨e0 ++ extra, by rw [← withLinks_withLinks]; exact he, by simp [hin]⟩

theorem nothingStarted_relinked {s : State} {ds : List CNetworkClientDispatcher} (n : Nat)
    (h : NothingStarted s) (hext : LinkExt s.poolContext.ClientsDispatcher ds) :
    NothingStarted (s.relinked ds n) := by
  obtain ⟨h1, h2, h3, h4, h5⟩ := h
  refine ⟨h1, h2, ?_, h4, h5⟩
  intro d hd
  simp only [State.relinked] at hd
  obtain ⟨i, hi⟩ := List.mem_iff_getElem?.mp hd
  have hlt : i < s.poolContext.ClientsDispatcher.length := by
    rw [← hext.1]
    by_contra hge
    rw [List.getElem?_eq_none (by omega)] at hi
    cases hi
  obtain ⟨extra, he⟩ := hext.2 i _ (List.getElem?_eq_getElem hlt)
  rw [hi] at he
  cases he
  have hp := h3 _ (List.getElem_mem hlt)
  simpa [CNetworkClientDispatcher.withLinks] using hp

theorem initInstances_frame (env : Env) :
    ∀ (configs : List CInstanceConfig) (s : State),
      ∃ ds n, (initInstances env configs s).state = s.relinked ds n ∧
        LinkExt s.poolContext.ClientsDispatcher ds := by
  intro configs
  induction configs with
  | nil => intro s; exact ⟨_, _, rfl, linkExt_refl _⟩
  | cons ic rest ih =>
    intro s
    simp only [initInstances]
    split
    · obtain ⟨ds, e1, e2⟩ := linkBackends_frame (instanceFor s.instancesCreated ic) ic.Backends
        { s with instancesCreated := s.instancesCreated + 1 }
      split
      · rename_i s2 hs2
        rw [hs2] at e1
        simp only [Step.state] at e1
        obtain ⟨ds2, n2, e3, e4⟩ := ih s2
        refine ⟨ds2, n2, ?_, ?_⟩
        · rw [e3, e1]; rfl
        · rw [e1] at e4
          exact linkExt_trans e2 e4
      · rename_i hlt s2 hs2
        rw [hs2] at e1
        simp only [Step.state] at e1
        exact ⟨ds, s.instancesCreated + 1, by rw [Step.state, e1]; rfl, e2⟩
    · exact ⟨_, _, rfl, linkExt_refl _⟩

theorem initInstances_halt (env : Env) :
    ∀ (configs : List CInstanceConfig) (s s1 : State) (hlt : Halt),
      initInstances env configs s = .halt hlt s1 → hlt = .return1 := by
  intro configs
  induction configs with
  | nil => intro s s1 hlt h; simp [initInstances] at h
  | cons ic rest ih =>
    intro s s1 hlt h
    simp only [initInstances] at h
    split at h
    · split at h
      · exact ih _ _ _ h
      · rename_i h0 s0 hs0
        cases h
        exact linkBackends_halt _ _ _ _ _ hs0
    · cases h; rfl

theorem initInstances_next (env : Env) :
    ∀ (configs : List CInstanceConfig) (s s1 : State),
      initInstances env configs s = .next s1 →
      ∀ j ic, configs[j]? = some ic →
        env.fabricGet ic.Type_ ic.Protocol ic.InstanceConfig = true ∧
        ∀ name ∈ ic.Backends, ∃ idx, mapFind s.poolContext.CoinIdxMap name = some idx ∧
          ∀ d, s.poolContext.ClientsDispatcher[idx]? = some d →
            ∃ extra, s1.poolContext.ClientsDispatcher[idx]? = some (d.withLinks extra) ∧
              instanceFor (s.instancesCreated + j) ic ∈ extra := by
  intro configs
  induction configs with
  | nil => intro s s1 _ j ic hj; simp at hj
  | cons ic0 rest ih =>
    intro s s1 h j ic hj
    simp only [initInstances] at h
    split at h
    · rename_i hfab
      obtain ⟨ds, e1, e2⟩ := linkBackends_frame (instanceFor s.instancesCreated ic0) ic0.Backends
        { s with instancesCreated := s.instancesCreated + 1 }
      split at h
      · rename_i s2 hs2
        rw [hs2] at e1
        simp only [Step.state] at e1
        cases j with
        | zero =>
          simp only [List.getElem?_cons_zero, Option.some.injEq] at hj
          subst hj
          refine ⟨hfab, ?_⟩
          intro name hn
          obtain ⟨idx, hidx, hd⟩ := linkBackends_next _ _ _ _ hs2 name hn
          refine ⟨idx, hidx, ?_⟩
          intro d hds
          obtain ⟨extra, he, hin⟩ := hd d hds
          obtain ⟨ds2, n2, e3, e4⟩ := initInstances_frame env rest s2
          rw [h] at e3
          simp only [Step.state] at e3
          obtain ⟨x2, hx2⟩ := e4.2 idx _ he
          refine ⟨extra ++ x2, ?_, by simp [hin]⟩
          rw [e3, ← withLinks_withLinks]
          exact hx2
        | succ k =>
          simp only [List.getElem?_cons_succ] at hj
          obtain ⟨hf, hrest⟩ := ih s2 s1 h k ic hj
          refine ⟨hf, ?_⟩
          intro name hn
          obtain ⟨idx, hidx, hd⟩ := hrest name hn
          subst e1
          refine ⟨idx, hidx, ?_⟩
          intro d hds
          obtain ⟨x0, hx0⟩ := e2.2 idx d hds
          obtain ⟨extra, he, hin⟩ := hd _ hx0
          refine ⟨x0 ++ extra, by rw [← withLinks_withLinks]; exact he, ?_⟩
          have : s.instancesCreated + (k + 1) = s.instancesCreated + 1 + k := by omega
          rw [this]
          simp only [State.relinked] at hin
          simp [hin]
      · cases h
    · cases h

theorem smtpConfig_next {env : Env} {config : CPoolFrontendConfig} {s s1 : State}
    (h : smtpConfig env config s = .next s1) : ∃ smtp, s1 = s.withSmtp smtp := by
  unfold smtpConfig at h
  split at h
  · split at h
    · cases h
    · split at h
      · cases h
      · simp only at h
        split at h
        · cases h
        · cases h; exact ⟨_, rfl⟩
  · cases h; exact ⟨s.poolContext.UserMgr.Smtp, rfl⟩

theorem smtpConfig_halt {env : Env} {config : CPoolFrontendConfig} {s s1 : State} {hlt : Halt}
    (h : smtpConfig env config s = .halt hlt s1) :
    s1 = s ∧ (hlt = .nullDeref ↔ smtpLookupFails env config = true) := by
  unfold smtpConfig at h
  unfold smtpLookupFails
  split at h
  · rename_i hen
    split at h
    · rename_i hcol
      cases h
      simp [hen, hcol]
    · rename_i hostName portText hcol
      split at h
      · rename_i hhost
        cases h
        simp [hen, hcol, hhost]
      · rename_i host hhost
        simp only at h
        split at h
        · cases h
          simp [hen, hcol, hhost]
        · cases h
  · cases h

theorem smtpConfig_next_ok {env : Env} {config : CPoolFrontendConfig} {s s1 : State}
    (h : smtpConfig env config s = .next s1) : smtpLookupFails env config = false := by
  unfold smtpConfig at h
  unfold smtpLookupFails
  split at h
  · rename_i hen
    split at h
    · rename_i hcol; simp [hcol]
    · rename_i hostName portText hcol
      split at h
      · cases h
      · rename_i host hhost; simp [hcol, hhost]
  · rename_i hen; simp [hen]

theorem nothingStarted_initialState (config : CPoolFrontendConfig) :
    NothingStarted (initialState config) := by
  simp [NothingStarted, initialState]

theorem nothingStarted_withSmtp {s : State} (smtp : Option SmtpSettings) (h : NothingStarted s) :
    NothingStarted (s.withSmtp smtp) := h

theorem nothingStarted_resize {s : State} (n : Nat) (h : NothingStarted s) :
    NothingStarted (resizeInstances n s) := h

theorem analyzeConfig_next {env : Env} {config : CPoolFrontendConfig} {s : State}
    (h : analyzeConfig env config = .next s) : Initialised env config s := by
  unfold analyzeConfig at h
  split at h
  · cases h
  · rename_i s0 hs0
    split at h
    · cases h
    · rename_i s1 hs1
      obtain ⟨smtp, rfl⟩ := smtpConfig_next hs0
      have hok := smtpConfig_next_ok hs0
      have cb := initBackends_next _ _ _ _ hs1
      obtain ⟨nb, nd, hb, hd, hlb, hld, hpt⟩ := cb.built
      simp only [State.withSmtp, initialState, List.nil_append] at hb hd
      obtain ⟨ds, n, e1, e2⟩ := initInstances_frame env config.Instances
        (resizeInstances config.Instances.length s1)
      rw [h] at e1
      simp only [Step.state] at e1
      have hnext := initInstances_next env _ _ _ h
      have hcd : (resizeInstances config.Instances.length s1).poolContext.ClientsDispatcher = nd := hd
      have hmap : (resizeInstances config.Instances.length s1).poolContext.CoinIdxMap =
          s1.poolContext.CoinIdxMap := rfl
      have hic : (resizeInstances config.Instances.length s1).instancesCreated = 0 := by
        show s1.instancesCreated = 0
        rw [cb.instancesCreated]; rfl
      have hsound : ∀ k i, mapFind s1.poolContext.CoinIdxMap k = some i →
          ∃ c, config.Coins[i]? = some c ∧ c.Name = k := by
        intro k i hk
        rcases initBackends_mapFind _ _ _ _ hs1 k i hk with h0 | ⟨j, c, hj, hn, hi⟩
        · simp [State.withSmtp, initialState, mapFind] at h0
        · exact ⟨c, by simpa [hi] using hj, hn⟩
      have hns : NothingStarted s1 := by
        have := @initBackends_nothingStarted env (totalThreadsNum env config)
          config.Coins 0 _ (nothingStarted_withSmtp smtp (nothingStarted_initialState config))
        rw [hs1] at this
        exact this
      have hcoin : ∀ i c, config.Coins[i]? = some c →
          (env.coinLibraryGet c.Name).Name.isEmpty = false ∧
          (∀ node ∈ c.Nodes, node.Type_ = "bitcoinrpc") ∧
          ∃ bc, makeBackendConfig env config.IsMaster config.DbPath c (env.coinLibraryGet c.Name) =
              some bc ∧
            nb[i]? = some (backendFor bc (env.coinLibraryGet c.Name) i) ∧
            nd[i]? = some (dispatcherFor (env.coinLibraryGet c.Name) (totalThreadsNum env config) i
              c.Nodes) := by
        intro i c hi
        obtain ⟨h1, h2, bc, h3, h4, h5⟩ := hpt i c hi
        refine ⟨h1, h2, bc, h3, ?_, ?_⟩
        · simpa [State.withSmtp, initialState] using h4
        · simpa [State.withSmtp, initialState] using h5
      subst e1
      refine
        { backendsLength := by
            show s1.poolContext.Backends.length = _
            rw [hb, hlb]
          dispatchersLength := by
            show ds.length = _
            rw [e2.1, hcd, hld]
          coinList := by
            show s1.poolContext.CoinList = _
            rw [cb.coinList]; rfl
          coin := ?_
          mapSound := hsound
          mapComplete := ?_
          linked := ?_
          instances := ?_
          nothingStarted := nothingStarted_relinked n (nothingStarted_resize _ hns) e2
          smtpOk := hok }
      · intro i c hi
        obtain ⟨h1, h2, bc, h3, h4, h5⟩ := hcoin i c hi
        rw [← hcd] at h5
        obtain ⟨extra, he⟩ := e2.2 i _ h5
        refine ⟨h1, h2, bc, extra, h3, ?_, he⟩
        show s1.poolContext.Backends[i]? = _
        rw [hb]; exact h4
      · intro c hc
        exact initBackends_mapFind_isSome _ _ _ _ hs1 c.Name
          (Or.inr (List.mem_map.mpr ⟨c, hc, rfl⟩))
      · intro j ic hj
        obtain ⟨hf, hl⟩ := hnext j ic hj
        refine ⟨hf, ?_⟩
        intro name hn
        obtain ⟨idx, hidx, hd2⟩ := hl name hn
        rw [hmap] at hidx
        obtain ⟨c, hc, _⟩ := hsound name idx hidx
        obtain ⟨_, _, bc, _, _, h5⟩ := hcoin idx c hc
        rw [← hcd] at h5
        obtain ⟨extra, he, hin⟩ := hd2 _ h5
        rw [hic, Nat.zero_add] at hin
        exact ⟨idx, _, hidx, he, by simp [CNetworkClientDispatcher.withLinks, hin]⟩
      · show (resizeInstances config.Instances.length s1).poolContext.Instances = _
        have : s1.poolContext.Instances = [] := by rw [cb.instances]; rfl
        simp [resizeInstances, this]

theorem main_next {env : Env} {config : CPoolFrontendConfig} {s : State}
    (h : main env config = .next s) :
    ∃ s0, analyzeConfig env config = .next s0 ∧ s = startAll (workerThreadsNum env config) s0 := by
  unfold main at h
  split at h
  · cases h
  · rename_i s0 hs0
    cases h
    exact ⟨s0, hs0, rfl⟩

theorem analyzeConfig_halt {env : Env} {config : CPoolFrontendConfig} {s : State} {hlt : Halt}
    (h : analyzeConfig env config = .halt hlt s) :
    NothingStarted s ∧ (hlt = .nullDeref ↔ smtpLookupFails env config = true) ∧
      (hlt = .nullDeref → s = initialState config) := by
  unfold analyzeConfig at h
  split at h
  · rename_i h0 s0 hs0
    cases h
    obtain ⟨e1, e2⟩ := smtpConfig_halt hs0
    subst e1
    exact ⟨nothingStarted_initialState config, e2, fun _ => rfl⟩
  · rename_i s0 hs0
    obtain ⟨smtp, rfl⟩ := smtpConfig_next hs0
    have hok := smtpConfig_next_ok hs0
    have hns0 : NothingStarted ((initialState config).withSmtp smtp) :=
      nothingStarted_withSmtp smtp (nothingStarted_initialState config)
    have hns1 := @initBackends_nothingStarted env (totalThreadsNum env config)
      config.Coins 0 _ hns0
    split at h
    · rename_i h1 s1 hs1
      cases h
      rw [hs1] at hns1
      have := initBackends_halt _ _ _ _ _ hs1
      subst this
      exact ⟨hns1, by simp [hok], by simp⟩
    · rename_i s1 hs1
      rw [hs1] at hns1
      obtain ⟨ds, n, e1, e2⟩ := initInstances_frame env config.Instances
        (resizeInstances config.Instances.length s1)
      rw [h] at e1
      simp only [Step.state] at e1
      have := initInstances_halt _ _ _ _ _ h
      subst this
      rw [e1]
      exact ⟨nothingStarted_relinked n (nothingStarted_resize _ hns1) e2, by simp [hok], by simp⟩

theorem main_halt {env : Env} {config : CPoolFrontendConfig} {s : State} {hlt : Halt}
    (h : main env config = .halt hlt s) :
    analyzeConfig env config = .halt hlt s := by
  unfold main at h
  split at h
  · rename_i h0 s0 hs0
    cases h
    exact hs0
  · cases h

theorem map_eq_range {α : Type} (l : List α) (f : α → Nat) (n : Nat) (hlen : l.length = n)
    (hp : ∀ i, i < n → ∃ a, l[i]? = some a ∧ f a = i) : l.map f = List.range n := by
  apply List.ext_getElem?
  intro i
  by_cases hi : i < n
  · obtain ⟨a, ha, hf⟩ := hp i hi
    rw [List.getElem?_map, ha, List.getElem?_range hi]
    simp [hf]
  · rw [List.getElem?_eq_none (by simp; omega), List.getElem?_eq_none (by simp; omega)]

theorem startAll_backends (n : Nat) (s : State) (i : Nat) :
    (startAll n s).poolContext.Backends[i]? =
      (s.poolContext.Backends[i]?).map (fun b => { b with Started := true }) := by
  simp [startAll]

theorem startAll_dispatchers (n : Nat) (s : State) (i : Nat) :
    (startAll n s).poolContext.ClientsDispatcher[i]? =
      (s.poolContext.ClientsDispatcher[i]?).map (fun d => { d with Polling := true }) := by
  simp [startAll]

theorem initBackends_fees {env : Env} {total : Nat} (coins : List CCoinConfig) (idx : Nat)
    (s s1 : State) (h : initBackends env total coins idx s = .next s1) :
    ∀ c ∈ coins, ∀ fee ∈ c.Fees,
      env.checkAddress (env.coinLibraryGet c.Name) fee.Address
        (env.coinLibraryGet c.Name).PayoutAddressType = true ∧
      fee.Percentage.gt hundred = false := by
  intro c hc fee hfee
  obtain ⟨i, hi⟩ := List.mem_iff_getElem?.mp hc
  obtain ⟨_, _, _, _, _, _, hpt⟩ := (initBackends_next coins idx s s1 h).built
  obtain ⟨_, _, bc, hbc, _, _⟩ := hpt i c hi
  obtain ⟨pf, hpf, _⟩ := makeBackendConfig_some hbc
  exact (poolFeeLoop_some hpf).2 fee hfee

theorem mulU_exact (w a b : Nat) (h : a * b < 2 ^ w) : mulU w a b = a * b :=
  Nat.mod_eq_of_lt h

theorem mulU_mulU_exact (w m a b : Nat) (hb : 0 < b) (h : m * a * b < 2 ^ w) :
    mulU w (mulU w m a) b = m * a * b := by
  have h1 : m * a < 2 ^ w := lt_of_le_of_lt (Nat.le_mul_of_pos_right _ hb) h
  rw [mulU_exact w m a h1, mulU_exact w (m * a) b h]

theorem runWorkers_spec :
    ∀ (schedule : List Nat) (counter : Nat), counter + schedule.length ≤ 2 ^ 32 →
      (runWorkers schedule counter).map (fun p => p.1) = schedule ∧
      (runWorkers schedule counter).map (fun p => p.2) = List.range' counter schedule.length := by
  intro schedule
  induction schedule with
  | nil => intro counter _; simp [runWorkers]
  | cons w rest ih =>
    intro counter hc
    simp only [runWorkers, InitializeWorkerThread, List.map_cons, List.length_cons,
      List.range'_succ]
    cases rest with
    | nil => simp [runWorkers]
    | cons w2 rest2 =>
      have hlt : counter + 1 < 2 ^ 32 := by
        simp only [List.length_cons] at hc
        omega
      rw [Nat.mod_eq_of_lt hlt]
      obtain ⟨e1, e2⟩ := ih (counter + 1) (by simp only [List.length_cons] at hc ⊢; omega)
      rw [e1, e2]
      simp

theorem workerThreadsNum_lt (env : Env) (config : CPoolFrontendConfig) :
    workerThreadsNum env config < 2 ^ 32 := by
  unfold workerThreadsNum
  simp only
  split
  · split
    · exact Nat.mod_lt _ (by norm_num)
    · norm_num
  · exact Nat.mod_lt _ (by norm_num)

theorem workerThreadsNum_pos (env : Env) (config : CPoolFrontendConfig) :
    1 ≤ workerThreadsNum env config := by
  unfold workerThreadsNum
  simp only
  split
  · split
    · omega
    · norm_num
  · omega

theorem totalThreadsNum_exact (env : Env) (config : CPoolFrontendConfig)
    (h : workerThreadsNum env config + config.Coins.length + 3 < 2 ^ 32) :
    totalThreadsNum env config = workerThreadsNum env config + config.Coins.length + 3 := by
  unfold totalThreadsNum
  have h1 : (1 + 1 + workerThreadsNum env config) % 2 ^ 32 = 1 + 1 + workerThreadsNum env config :=
    Nat.mod_eq_of_lt (by omega)
  have h2 : (1 + 1 + workerThreadsNum env config + config.Coins.length) % 2 ^ 64 =
      1 + 1 + workerThreadsNum env config + config.Coins.length :=
    Nat.mod_eq_of_lt (by norm_num at h ⊢; omega)
  have h3 : (1 + 1 + workerThreadsNum env config + config.Coins.length + 1) % 2 ^ 64 =
      1 + 1 + workerThreadsNum env config + config.Coins.length + 1 :=
    Nat.mod_eq_of_lt (by norm_num at h ⊢; omega)
  rw [h1, h2, h3, Nat.mod_eq_of_lt (by omega)]
  omega

theorem shutdownInv_init (env : Env) (s : State) :
    ShutdownInv env s.poolContext.Backends.length s.workerThreads (waitForShutdown s) := by
  constructor <;> simp [waitForShutdown, SigPc.called, SigPc.stopped, SigPc.userMgrStopped,
    SigPc.quitPosted, SigPc.InRange]

theorem shutdownInv_sigIntThread (env : Env) (n w : Nat) (r : Running)
    (h : ShutdownInv env n w r) : ShutdownInv env n w (sigIntThreadStep r) := by
  obtain ⟨b, w', intr, pc, joined, ret, log⟩ := r
  obtain ⟨h1, h2, h3, h4, h5, h6, h7, h8, h9, h10, h11, h12, h13, h14⟩ := h
  simp only at h1 h2 h3 h4 h5 h6 h7 h8 h9 h10 h11 h12 h13 h14
  subst h1 h2
  cases pc with
  | waiting =>
    simp only [sigIntThreadStep]
    split
    · rename_i hi
      exact ⟨rfl, rfl, by simp [SigPc.InRange], h4, h5, h6, h7, h8, h9, h10, h11, h12, h13,
        fun _ => hi⟩
    · exact ⟨rfl, rfl, h3, h4, h5, h6, h7, h8, h9, h10, h11, h12, h13, h14⟩
  | stopping k =>
    simp only [sigIntThreadStep]
    have hint : intr = true := h14 (by simp)
    simp only [SigPc.called, SigPc.stopped, SigPc.userMgrStopped, SigPc.quitPosted,
      SigPc.InRange] at h3 h4 h5 h6 h7
    split
    · rename_i hk
      refine ⟨rfl, rfl, hk, ?_, ?_, ?_, ?_, ?_, ?_, ?_, h11, ?_, h13, fun _ => hint⟩
      · intro i; simp only [List.mem_append, List.mem_singleton, SigPc.called, h4]
        simp; omega
      · intro i; simp [SigPc.stopped, h5]
      · simpa [SigPc.userMgrStopped] using h6
      · simpa [SigPc.quitPosted] using h7
      · intro hc j hj; simp at hj; simpa using h8 hc j hj
      · intro j; simp [h9]
      · intro j hj; simp [h10 j hj]
      · simpa using h12
    · rename_i hk
      have hkn : k = b := by omega
      subst hkn
      refine ⟨rfl, rfl, trivial, ?_, ?_, ?_, ?_, ?_, ?_, ?_, h11, ?_, h13, fun _ => hint⟩
      · intro i; simp [SigPc.called, h4]
      · intro i; simp [SigPc.stopped, h5]
      · simp [SigPc.userMgrStopped]
      · simpa [SigPc.quitPosted] using h7
      · intro hc j hj; simp at hj; simpa using h8 hc j hj
      · intro j; simp [h9]
      · intro j hj; simp [h10 j hj]
      · simpa using h12
  | inStop k =>
    simp only [sigIntThreadStep]
    have hint : intr = true := h14 (by simp)
    simp only [SigPc.called, SigPc.stopped, SigPc.userMgrStopped, SigPc.quitPosted,
      SigPc.InRange] at h3 h4 h5 h6 h7
    refine ⟨rfl, rfl, ?_, ?_, ?_, ?_, ?_, ?_, ?_, ?_, h11, ?_, h13, fun _ => hint⟩
    · simp only [SigPc.InRange]; omega
    · intro i; simp [SigPc.called, h4]
    · intro i; simp only [List.mem_append, List.mem_singleton, SigPc.stopped, h5]
      simp; omega
    · simpa [SigPc.userMgrStopped] using h6
    · simpa [SigPc.quitPosted] using h7
    · intro hc j hj; simp at hj; simpa using h8 hc j hj
    · intro j; simp [h9]
    · intro j hj; simp [h10 j hj]
    · simpa using h12
  | quitting =>
    simp only [sigIntThreadStep]
    have hint : intr = true := h14 (by simp)
    simp only [SigPc.called, SigPc.stopped, SigPc.userMgrStopped, SigPc.quitPosted,
      SigPc.InRange] at h3 h4 h5 h6 h7
    refine ⟨rfl, rfl, trivial, ?_, ?_, ?_, ?_, ?_, ?_, ?_, h11, ?_, h13, fun _ => hint⟩
    · intro i; simp [SigPc.called, h4]
    · intro i; simp [SigPc.stopped, h5]
    · simp [SigPc.userMgrStopped, h6]
    · simp [SigPc.quitPosted]
    · intro hc j hj; simp
    · intro j; simp [h9]
    · intro j hj; simp [h10 j hj]
    · simpa using h12
  | done =>
    exact ⟨rfl, rfl, h3, h4, h5, h6, h7, h8, h9, h10, h11, h12, h13, h14⟩

theorem shutdownInv_worker (env : Env) (n w j : Nat) (r : Running)
    (h : ShutdownInv env n w r) : ShutdownInv env n w (workerStep env j r) := by
  unfold workerStep
  split
  · rename_i hcond
    obtain ⟨_, _, hret⟩ := hcond
    obtain ⟨h1, h2, h3, h4, h5, h6, h7, h8, h9, h10, h11, h12, h13, h14⟩ := h
    refine ⟨h1, h2, h3, ?_, ?_, ?_, ?_, ?_, ?_, ?_, h11, ?_, h13, h14⟩
    · intro i; simpa using h4 i
    · intro i; simpa using h5 i
    · simpa using h6
    · simpa using h7
    · intro hc j2 hj2
      simp only [List.mem_append, List.mem_singleton, ShutdownEvent.workerExit.injEq] at hj2
      simp only [List.mem_append, List.mem_singleton]
      left
      rcases hj2 with hj2 | hj2
      · exact h8 hc j2 hj2
      · by_contra hq
        simp only [hq, decide_False, hc] at hret
        cases hret
    · intro j2; simpa using h9 j2
    · intro j2 hj2; simp [h10 j2 hj2]
    · simpa using h12
  · exact h

theorem shutdownInv_mainThread (env : Env) (n w : Nat) (r : Running)
    (h : ShutdownInv env n w r) : ShutdownInv env n w (mainThreadStep r) := by
  unfold mainThreadStep
  split
  · exact h
  · rename_i hnot
    obtain ⟨h1, h2, h3, h4, h5, h6, h7, h8, h9, h10, h11, h12, h13, h14⟩ := h
    split
    · rename_i hlt
      split
      · rename_i hex
        refine ⟨h1, h2, h3, ?_, ?_, ?_, ?_, ?_, ?_, ?_, ?_, ?_, ?_, h14⟩
        · intro i; simpa using h4 i
        · intro i; simpa using h5 i
        · simpa using h6
        · simpa using h7
        · intro hc j hj; simp at hj; simpa using h8 hc j hj
        · intro j
          simp only [List.mem_append, List.mem_singleton, ShutdownEvent.join.injEq, h9]
          omega
        · intro j hj
          have hj2 : j < r.joined + 1 := hj
          simp only [List.mem_append, List.mem_singleton]
          left
          by_cases hjj : j = r.joined
          · rw [hjj]; exact hex
          · exact h10 j (by omega)
        · show r.joined + 1 ≤ w
          omega
        · simpa using h12
        · intro hr; exact absurd hr hnot
      · exact ⟨h1, h2, h3, h4, h5, h6, h7, h8, h9, h10, h11, h12, h13, h14⟩
    · rename_i hge
      refine ⟨h1, h2, h3, ?_, ?_, ?_, ?_, ?_, ?_, ?_, h11, ?_, ?_, h14⟩
      · intro i; simpa using h4 i
      · intro i; simpa using h5 i
      · simpa using h6
      · simpa using h7
      · intro hc j hj; simp at hj; simpa using h8 hc j hj
      · intro j; simpa using h9 j
      · intro j hj; simp [h10 j hj]
      · simp
      · intro _
        show r.joined = w
        omega

theorem shutdownInv_step (env : Env) (n w : Nat) (a : Action) (r : Running)
    (h : ShutdownInv env n w r) : ShutdownInv env n w (step env a r) := by
  cases a with
  | signal =>
    obtain ⟨h1, h2, h3, h4, h5, h6, h7, h8, h9, h10, h11, h12, h13, h14⟩ := h
    exact ⟨h1, h2, h3, h4, h5, h6, h7, h8, h9, h10, h11, h12, h13, fun _ => rfl⟩
  | sigIntThread => exact shutdownInv_sigIntThread env n w r h
  | worker j => exact shutdownInv_worker env n w j r h
  | mainThread => exact shutdownInv_mainThread env n w r h

theorem shutdownInv_run (env : Env) (n w : Nat) :
    ∀ (schedule : List Action) (r : Running),
      ShutdownInv env n w r → ShutdownInv env n w (run env schedule r) := by
  intro schedule
  induction schedule with
  | nil => intro r h; exact h
  | cons a rest ih => intro r h; exact ih _ (shutdownInv_step env n w a r h)

theorem interrupted_step (env : Env) (a : Action) (r : Running) (h : r.interrupted = true) :
    (step env a r).interrupted = true := by
  cases a with
  | signal => rfl
  | sigIntThread =>
    simp only [step, sigIntThreadStep]
    split
    · split <;> exact h
    · split <;> exact h
    · exact h
    · exact h
    · exact h
  | worker j =>
    simp only [step, workerStep]
    split <;> exact h
  | mainThread =>
    simp only [step, mainThreadStep]
    split
    · exact h
    · split
      · split <;> exact h
      · exact h

theorem remaining_step (env : Env) (n w : Nat) (a : Action) (r : Running)
    (h : ShutdownInv env n w r) (hi : r.interrupted = true) :
    (step env a r).sigPc.remaining n + (if a = .sigIntThread then 1 else 0) ≤
      r.sigPc.remaining n ∨
    ((step env a r).sigPc.remaining n = 0 ∧ r.sigPc.remaining n = 0) := by
  cases a with
  | signal => left; simp [step]
  | worker j =>
    left
    simp only [step, workerStep]
    split <;> simp
  | mainThread =>
    left
    simp only [step, mainThreadStep]
    split
    · simp
    · split
      · split <;> simp
      · simp
  | sigIntThread =>
    have hb := h.backends
    have hr := h.inRange
    simp only [step, sigIntThreadStep]
    cases hpc : r.sigPc with
    | waiting =>
      left
      simp only [hi, if_true, SigPc.remaining]
      omega
    | stopping k =>
      left
      rw [hpc] at hr
      simp only [SigPc.InRange] at hr
      simp only
      split
      · simp only [SigPc.remaining, if_true]; omega
      · simp only [SigPc.remaining, if_true]; omega
    | inStop k =>
      left
      rw [hpc] at hr
      simp only [SigPc.InRange] at hr
      simp only [SigPc.remaining, if_true]
      omega
    | quitting => left; simp [SigPc.remaining]
    | done => right; simp [SigPc.remaining, hpc]

theorem remaining_run (env : Env) (n w : Nat) :
    ∀ (schedule : List Action) (r : Running), ShutdownInv env n w r → r.interrupted = true →
      (run env schedule r).sigPc.remaining n ≤
        r.sigPc.remaining n - schedule.count .sigIntThread := by
  intro schedule
  induction schedule with
  | nil => intro r _ _; simp [run]
  | cons a rest ih =>
    intro r h hi
    have h1 := ih _ (shutdownInv_step env n w a r h) (interrupted_step env a r hi)
    simp only [run]
    rcases remaining_step env n w a r h hi with h2 | ⟨h2, h3⟩
    · by_cases ha : a = .sigIntThread
      · subst ha
        simp only [if_true] at h2
        simp only [List.count_cons_self]
        omega
      · simp only [ha, if_false] at h2
        have hc : List.count Action.sigIntThread (a :: rest) = List.count Action.sigIntThread rest := by
          rw [List.count_cons_of_ne]
          exact fun h => ha h.symm
        rw [hc]
        omega
    · omega

theorem remaining_zero (n : Nat) (pc : SigPc) (h : pc.remaining n = 0) : pc = .done := by
  cases pc <;> simp [SigPc.remaining] at h ⊢

theorem remaining_le (n : Nat) (pc : SigPc) : pc.remaining n ≤ 2 * n + 3 := by
  cases pc <;> simp only [SigPc.remaining] <;> omega

theorem run_append (env : Env) :
    ∀ (schedule more : List Action) (r : Running),
      run env (schedule ++ more) r = run env more (run env schedule r) := by
  intro schedule
  induction schedule with
  | nil => intro more r; rfl
  | cons a rest ih => intro more r; exact ih more (step env a r)

theorem step_log (env : Env) (a : Action) (r : Running) :
    (step env a r).log = r.log ∨ ∃ e, (step env a r).log = r.log ++ [e] := by
  cases a with
  | signal => left; rfl
  | sigIntThread =>
    simp only [step, sigIntThreadStep]
    split
    · split <;> (left; rfl)
    · split
      · right; exact ⟨_, rfl⟩
      · right; exact ⟨_, rfl⟩
    · right; exact ⟨_, rfl⟩
    · right; exact ⟨_, rfl⟩
    · left; rfl
  | worker j =>
    simp only [step, workerStep]
    split
    · right; exact ⟨_, rfl⟩
    · left; rfl
  | mainThread =>
    simp only [step, mainThreadStep]
    split
    · left; rfl
    · split
      · split
        · right; exact ⟨_, rfl⟩
        · left; rfl
      · right; exact ⟨_, rfl⟩

theorem run_log_extends (env : Env) :
    ∀ (schedule : List Action) (r : Running), ∃ t, (run env schedule r).log = r.log ++ t := by
  intro schedule
  induction schedule with
  | nil => intro r; exact ⟨[], by simp [run]⟩
  | cons a rest ih =>
    intro r
    obtain ⟨t, ht⟩ := ih (step env a r)
    simp only [run]
    rcases step_log env a r with h | ⟨e, h⟩
    · exact ⟨t, by rw [ht, h]⟩
    · exact ⟨e :: t, by rw [ht, h]; simp⟩

theorem log_split (env : Env) :
    ∀ (schedule : List Action) (r0 : Running) (l1 : List ShutdownEvent) (e : ShutdownEvent)
      (l2 : List ShutdownEvent),
      (run env schedule r0).log = l1 ++ e :: l2 → r0.log.length ≤ l1.length →
      ∃ pre, (run env pre r0).log = l1 ++ [e] := by
  intro schedule
  induction schedule with
  | nil =>
    intro r0 l1 e l2 h hlen
    simp only [run] at h
    have := congrArg List.length h
    simp at this
    omega
  | cons a rest ih =>
    intro r0 l1 e l2 h hlen
    simp only [run] at h
    by_cases hl : (step env a r0).log.length ≤ l1.length
    · obtain ⟨pre, hpre⟩ := ih (step env a r0) l1 e l2 h hl
      exact ⟨a :: pre, hpre⟩
    · rcases step_log env a r0 with h0 | ⟨e0, h0⟩
      · rw [h0] at hl; exact absurd hlen hl
      · obtain ⟨t, ht⟩ := run_log_extends env rest (step env a r0)
        rw [ht, h0, List.append_assoc] at h
        have hlen2 : r0.log.length = l1.length := by
          rw [h0] at hl
          simp at hl
          omega
        obtain ⟨e1, e2⟩ := List.append_inj h hlen2
        simp only [List.singleton_append, List.cons.injEq] at e2
        refine ⟨[a], ?_⟩
        simp only [run]
        rw [h0, e1, e2.1]

/-! ## The claims -/

/-- C4: after a successful initialisation `Backends`, `ClientsDispatcher` and `CoinList` all
have as many elements as there are configured coins; for every index `i` the backend at `i`
was constructed with the dispatcher stored at `ClientsDispatcher[i]` and with the coin info
stored at `CoinList[i]`; the dispatchers referenced by the backends are pairwise distinct, and
so are the dispatchers stored, so no dispatcher is handed to two backends. -/
theorem backend_dispatcher_pairing (env : Env) (config : CPoolFrontendConfig) (s : State)
    (h : main env config = .next s) :
    s.poolContext.Backends.length = config.Coins.length ∧
    s.poolContext.ClientsDispatcher.length = config.Coins.length ∧
    s.poolContext.CoinList.length = config.Coins.length ∧
    (∀ i, i < config.Coins.length → ∃ b d info,
      s.poolContext.Backends[i]? = some b ∧
      s.poolContext.ClientsDispatcher[i]? = some d ∧
      s.poolContext.CoinList[i]? = some info ∧
      b.Dispatcher = d.Id ∧ b.CoinInfo = info ∧ d.CoinInfo = info) ∧
    (s.poolContext.Backends.map (fun b => b.Dispatcher)).Nodup ∧
    (s.poolContext.ClientsDispatcher.map (fun d => d.Id)).Nodup := by
  obtain ⟨s0, h0, rfl⟩ := main_next h
  have ini := analyzeConfig_next h0
  have hlb : (startAll (workerThreadsNum env config) s0).poolContext.Backends.length =
      config.Coins.length := by simp [startAll, ini.backendsLength]
  have hld : (startAll (workerThreadsNum env config) s0).poolContext.ClientsDispatcher.length =
      config.Coins.length := by simp [startAll, ini.dispatchersLength]
  have hpt : ∀ i, i < config.Coins.length → ∃ b d c,
      (startAll (workerThreadsNum env config) s0).poolContext.Backends[i]? = some b ∧
      (startAll (workerThreadsNum env config) s0).poolContext.ClientsDispatcher[i]? = some d ∧
      config.Coins[i]? = some c ∧
      b.Dispatcher = i ∧ d.Id = i ∧ b.CoinInfo = env.coinLibraryGet c.Name ∧
      d.CoinInfo = env.coinLibraryGet c.Name := by
    intro i hi
    obtain ⟨_, _, bc, extra, _, hb, hd⟩ := ini.coin i _ (List.getElem?_eq_getElem hi)
    exact ⟨_, _, _, by rw [startAll_backends, hb]; rfl, by rw [startAll_dispatchers, hd]; rfl,
      List.getElem?_eq_getElem hi, rfl, rfl, rfl, rfl⟩
  refine ⟨hlb, hld, by simp [startAll, ini.coinList], ?_, ?_, ?_⟩
  · intro i hi
    obtain ⟨b, d, c, hb, hd, hc, e1, e2, e3, e4⟩ := hpt i hi
    refine ⟨b, d, env.coinLibraryGet c.Name, hb, hd, ?_, by rw [e1, e2], e3, e4⟩
    have hl : (startAll (workerThreadsNum env config) s0).poolContext.CoinList =
        s0.poolContext.CoinList := rfl
    rw [hl, ini.coinList, List.getElem?_map, hc]
    rfl
  · rw [map_eq_range _ _ _ hlb]
    · exact List.nodup_range _
    · intro i hi
      obtain ⟨b, d, c, hb, hd, hc, e1, e2, e3, e4⟩ := hpt i hi
      exact ⟨b, hb, e1⟩
  · rw [map_eq_range _ _ _ hld]
    · exact List.nodup_range _
    · intro i hi
      obtain ⟨b, d, c, hb, hd, hc, e1, e2, e3, e4⟩ := hpt i hi
      exact ⟨d, hd, e2⟩

/-- Witness for C4: the valid sample configuration initialises successfully, and the pairing
holds in the resulting state. -/
theorem backend_dispatcher_pairing_witness :
    main sampleEnv sampleConfig = .next sampleFinal ∧
    sampleFinal.poolContext.Backends.length = sampleConfig.Coins.length ∧
    (sampleFinal.poolContext.Backends.map (fun b => b.Dispatcher)).Nodup :=
  ⟨by decide,
   (backend_dispatcher_pairing sampleEnv sampleConfig sampleFinal (by decide)).1,
   (backend_dispatcher_pairing sampleEnv sampleConfig sampleFinal (by decide)).2.2.2.2.1⟩

/-- After a successful initialisation every slot of `poolContext.Instances` is still null:
the instance loop never stores the instance it obtained from the fabric. -/
theorem instances_never_assigned (env : Env) (config : CPoolFrontendConfig) (s : State)
    (h : main env config = .next s) :
    s.poolContext.Instances = List.replicate config.Instances.length none := by
  obtain ⟨s0, h0, rfl⟩ := main_next h
  exact (analyzeConfig_next h0).instances

/-- C9 (the code at the failing input): on the valid sample configuration, whose single
instance the fabric does create, initialisation succeeds and `poolContext.Instances` has one
slot, which is null. -/
theorem instances_slot_left_empty :
    sampleEnv.fabricGet "stratum" "stratum" "port 3456" = true ∧
    main sampleEnv sampleConfig = .next sampleFinal ∧
    sampleFinal.poolContext.Instances = [none] := by
  decide

/-- When SMTP is enabled, the server text has a colon and the host lookup returns null, `main`
reaches the dereference of the null `hostent` pointer, before anything else is done. -/
theorem failed_lookup_reaches_null_dereference (env : Env) (config : CPoolFrontendConfig)
    (h : smtpLookupFails env config = true) :
    main env config = .halt .nullDeref (initialState config) := by
  cases hr : main env config with
  | next s =>
    obtain ⟨s0, h0, _⟩ := main_next hr
    have := (analyzeConfig_next h0).smtpOk
    rw [h] at this
    cases this
  | halt hlt s =>
    obtain ⟨_, e1, e2⟩ := analyzeConfig_halt (main_halt hr)
    have hn := e1.mpr h
    subst hn
    rw [e2 rfl]

/-- When the SMTP block reaches `enableSMTP`, the server text has a colon, the host part
resolved to a `hostent` whose first address, read as a `u_long`, is not 0, the address passed
is that value converted to `uint32_t`, and the port passed is `htons` of `atoi` of the text
after the first colon. -/
theorem enableSMTP_arguments (env : Env) (config : CPoolFrontendConfig) (s : State)
    (settings : SmtpSettings) (h : smtpConfig env config (initialState config) = .next s)
    (hs : s.poolContext.UserMgr.Smtp = some settings) :
    config.SmtpEnabled = true ∧
    ∃ hostName portText host addr,
      strchr config.SmtpServer ':' = some (hostName, portText) ∧
      env.gethostbyname hostName = some host ∧
      host.h_addr = some addr ∧ addr ≠ 0 ∧
      settings.address.family = AF_INET ∧
      settings.address.ipv4 = addr % 2 ^ 32 ∧
      settings.address.port = env.htons (env.atoi portText % 2 ^ 16).toNat := by
  unfold smtpConfig at h
  split at h
  · rename_i hen
    refine ⟨hen, ?_⟩
    split at h
    · cases h
    · rename_i hostName portText hcol
      split at h
      · cases h
      · rename_i host hhost
        cases ha : host.h_addr with
        | none => simp [ha] at h
        | some addr =>
          simp only [ha] at h
          split at h
          · cases h
          · rename_i hne
            cases h
            simp only [Option.some.injEq] at hs
            subst hs
            exact ⟨hostName, portText, host, addr, hcol, hhost, ha, hne, rfl, rfl, rfl⟩
  · cases h
    simp [initialState] at hs

/-- C8 (the code at the failing input): with SMTP enabled and the server "mail.invalid:25",
whose name does not resolve (`gethostbyname` returns null), `main` does not return 1 but goes
on to dereference the null pointer. -/
theorem failed_smtp_lookup_dereferences_null :
    sampleEnv.gethostbyname "mail.invalid" = none ∧
    main sampleEnv smtpFailConfig = .halt .nullDeref (initialState smtpFailConfig) ∧
    main sampleEnv smtpFailConfig ≠ .halt .return1 (initialState smtpFailConfig) := by
  decide

/-- C1 (amended): when the coin initialisation loop completes without `return 1`, every fee
entry of every coin has, taken alone, a percentage that is not greater than 100: the test
`Percentage > 100.0f` is false for it.  The sum over a coin's entries is not examined. -/
theorem accepted_fees_each_at_most_hundred (env : Env) (total : Nat) (coins : List CCoinConfig)
    (idx : Nat) (s s1 : State) (h : initBackends env total coins idx s = .next s1) :
    ∀ c ∈ coins, ∀ fee ∈ c.Fees, fee.Percentage.gt hundred = false := by
  intro c hc fee hfee
  exact ((initBackends_fees coins idx s s1 h) c hc fee hfee).2

/-- Witness for C1 (amended): the coin loop accepts the sample configuration, whose fee entry
is 1 %. -/
theorem accepted_fees_each_at_most_hundred_witness :
    initBackends sampleEnv 7 sampleConfig.Coins 0 (initialState sampleConfig) =
      .next (initBackends sampleEnv 7 sampleConfig.Coins 0 (initialState sampleConfig)).state ∧
    ∀ c ∈ sampleConfig.Coins, ∀ fee ∈ c.Fees, fee.Percentage.gt hundred = false :=
  ⟨by decide,
   accepted_fees_each_at_most_hundred sampleEnv 7 sampleConfig.Coins 0 (initialState sampleConfig)
     (initBackends sampleEnv 7 sampleConfig.Coins 0 (initialState sampleConfig)).state (by decide)⟩

/-- C1 (counterexample): a coin with two fee entries of 60 % each is accepted, by the coin
loop and by `main` as a whole, although its percentages sum to 120. -/
theorem fee_sum_above_hundred_accepted :
    (initBackends sampleEnv (totalThreadsNum sampleEnv twoFeesConfig) twoFeesConfig.Coins 0
      (initialState twoFeesConfig)).isNext = true ∧
    (main sampleEnv twoFeesConfig).isNext = true ∧
    twoFeesConfig.Coins.map (fun c => exactSum (c.Fees.map (fun fee => fee.Percentage))) =
      [some 120] ∧
    ¬ ((120 : ℚ) ≤ 100) := by
  refine ⟨by decide, by decide, ?_, by norm_num⟩
  simp [twoFeesConfig, sampleConfigWith, sampleCoin, exactSum]
  norm_num

/-- C6 (amended): after a successful initialisation the backend of every configured coin
holds `m * 60 * 1000000` for each of the four check intervals, `days * 86400` for
`KeepRoundTime` and `minutes * 60` for `KeepStatsTime`, whenever that product is smaller than
`2 ^ w`, `w` being the width of the unsigned type the product is computed in. -/
theorem intervals_exact_in_range (env : Env) (config : CPoolFrontendConfig) (s : State)
    (h : main env config = .next s) :
    ∀ (i : Nat) (c : CCoinConfig), config.Coins[i]? = some c →
      ∃ b : PoolBackend, s.poolContext.Backends[i]? = some b ∧
      (c.ConfirmationsCheckInterval * 60 * 1000000 < 2 ^ env.uintBits →
        b.Config.ConfirmationsCheckInterval = c.ConfirmationsCheckInterval * 60 * 1000000) ∧
      (c.PayoutInterval * 60 * 1000000 < 2 ^ env.uintBits →
        b.Config.PayoutInterval = c.PayoutInterval * 60 * 1000000) ∧
      (c.BalanceCheckInterval * 60 * 1000000 < 2 ^ env.uintBits →
        b.Config.BalanceCheckInterval = c.BalanceCheckInterval * 60 * 1000000) ∧
      (c.StatisticCheckInterval * 60 * 1000000 < 2 ^ env.uintBits →
        b.Config.StatisticCheckInterval = c.StatisticCheckInterval * 60 * 1000000) ∧
      (c.KeepRoundTime * 86400 < 2 ^ env.uintBits →
        b.Config.KeepRoundTime = c.KeepRoundTime * 86400) ∧
      (c.KeepStatsTime * 60 < 2 ^ env.uintBits →
        b.Config.KeepStatsTime = c.KeepStatsTime * 60) := by
  intro i c hi
  obtain ⟨s0, h0, rfl⟩ := main_next h
  obtain ⟨_, _, bc, extra, hbc, hb, _⟩ := (analyzeConfig_next h0).coin i c hi
  obtain ⟨pf, _, _, e1, e2, e3, e4, e5, e6⟩ := makeBackendConfig_some hbc
  refine ⟨_, by rw [startAll_backends, hb]; rfl, ?_, ?_, ?_, ?_, ?_, ?_⟩
  · intro hr; simp only [backendFor]; rw [e3, mulU_mulU_exact _ _ _ _ (by norm_num) hr]
  · intro hr; simp only [backendFor]; rw [e4, mulU_mulU_exact _ _ _ _ (by norm_num) hr]
  · intro hr; simp only [backendFor]; rw [e5, mulU_mulU_exact _ _ _ _ (by norm_num) hr]
  · intro hr; simp only [backendFor]; rw [e6, mulU_mulU_exact _ _ _ _ (by norm_num) hr]
  · intro hr
    simp only [backendFor]
    rw [e1, mulU_mulU_exact _ _ _ _ (by norm_num) (by omega)]
    omega
  · intro hr; simp only [backendFor]; rw [e2, mulU_exact _ _ _ hr]

/-- Witness for C6 (amended): on the sample configuration (payout interval 60 minutes, 32-bit
unsigned) the products are in range and the backend holds them. -/
theorem intervals_exact_in_range_witness :
    main sampleEnv sampleConfig = .next sampleFinal ∧
    sampleConfig.Coins[0]? =
      some (sampleCoin [{ Address := "1PoolFee", Percentage := .finite 1 }] sampleNodes 60) ∧
    ∃ b, sampleFinal.poolContext.Backends[0]? = some b ∧
      b.Config.PayoutInterval = 60 * 60 * 1000000 := by
  refine ⟨by decide, by decide, ?_⟩
  obtain ⟨b, hb, _, h2, _⟩ :=
    intervals_exact_in_range sampleEnv sampleConfig sampleFinal (by decide) 0
      (sampleCoin [{ Address := "1PoolFee", Percentage := .finite 1 }] sampleNodes 60) (by decide)
  exact ⟨b, hb, h2 (by norm_num [sampleCoin, sampleEnv])⟩

/-- C6 (counterexample): with a 32-bit unsigned type a payout interval of 72 minutes is handed
to the backend as 25032704 microseconds instead of 4320000000; with a 64-bit type the same
happens from 307445734562 minutes on. -/
theorem payout_interval_wraps :
    (main sampleEnv longPayoutConfig).isNext = true ∧
    (main sampleEnv longPayoutConfig).state.poolContext.Backends.map
      (fun b => b.Config.PayoutInterval) = [25032704] ∧
    25032704 ≠ 72 * 60 * 1000000 ∧
    (main sampleEnv64 hugePayoutConfig).isNext = true ∧
    (main sampleEnv64 hugePayoutConfig).state.poolContext.Backends.map
      (fun b => b.Config.PayoutInterval) = [10448384] ∧
    10448384 ≠ 307445734562 * 60 * 1000000 := by
  decide

/-- C10 (amended): after a successful initialisation `main` starts `workerThreadsNum` worker
threads, at least one, where `workerThreadsNum` is the configured count or, when that is 0,
the hardware concurrency, or 4 when that is 0 too.  In whatever order the workers execute
`InitializeWorkerThread`, every worker gets an id, the ids handed out are exactly
`0 .. workerThreadsNum - 1` and pairwise distinct.  Every dispatcher was given the same
`totalThreadsNum`; provided `workerThreadsNum + number of coins + 3 < 2 ^ 32`, that value is
`workerThreadsNum + number of coins + 3` and every worker id is smaller than it. -/
theorem worker_thread_ids (env : Env) (config : CPoolFrontendConfig) (s : State)
    (schedule : List Nat) (h : main env config = .next s)
    (hs : schedule.Perm (List.range s.workerThreads)) :
    s.workerThreads = workerThreadsNum env config ∧
    1 ≤ workerThreadsNum env config ∧
    (config.WorkerThreadsNum ≠ 0 → config.WorkerThreadsNum < 2 ^ 32 →
      workerThreadsNum env config = config.WorkerThreadsNum) ∧
    (config.WorkerThreadsNum = 0 → env.hardwareConcurrency ≠ 0 → env.hardwareConcurrency < 2 ^ 32 →
      workerThreadsNum env config = env.hardwareConcurrency) ∧
    (config.WorkerThreadsNum = 0 → env.hardwareConcurrency = 0 → workerThreadsNum env config = 4) ∧
    (runWorkers schedule 0).map (fun p => p.1) = schedule ∧
    (runWorkers schedule 0).map (fun p => p.2) = List.range (workerThreadsNum env config) ∧
    ((runWorkers schedule 0).map (fun p => p.2)).Nodup ∧
    (∀ d ∈ s.poolContext.ClientsDispatcher, d.TotalThreadsNum = totalThreadsNum env config) ∧
    (workerThreadsNum env config + config.Coins.length + 3 < 2 ^ 32 →
      totalThreadsNum env config = workerThreadsNum env config + config.Coins.length + 3 ∧
      ∀ p ∈ runWorkers schedule 0, p.2 < totalThreadsNum env config) := by
  obtain ⟨s0, h0, rfl⟩ := main_next h
  have ini := analyzeConfig_next h0
  have hw : (startAll (workerThreadsNum env config) s0).workerThreads =
      workerThreadsNum env config := rfl
  rw [hw] at hs
  have hlen : schedule.length = workerThreadsNum env config := by
    rw [hs.length_eq, List.length_range]
  have hle : 0 + schedule.length ≤ 2 ^ 32 := by
    have := workerThreadsNum_lt env config
    omega
  obtain ⟨r1, r2⟩ := runWorkers_spec schedule 0 hle
  have r3 : (runWorkers schedule 0).map (fun p => p.2) = List.range (workerThreadsNum env config) := by
    rw [r2, hlen, List.range_eq_range']
  refine ⟨hw, workerThreadsNum_pos env config, ?_, ?_, ?_, r1, r3, ?_, ?_, ?_⟩
  · intro h1 h2
    unfold workerThreadsNum
    simp only
    rw [Nat.mod_eq_of_lt h2, if_neg h1]
  · intro h1 h2 h3
    unfold workerThreadsNum
    simp only
    rw [h1, Nat.mod_eq_of_lt h3]
    simp [h2]
  · intro h1 h2
    simp [workerThreadsNum, h1, h2]
  · rw [r3]; exact List.nodup_range _
  · intro d hd
    obtain ⟨i, hi⟩ := List.mem_iff_getElem?.mp hd
    rw [startAll_dispatchers] at hi
    have hlt : i < config.Coins.length := by
      rw [← ini.dispatchersLength]
      by_contra hge
      rw [List.getElem?_eq_none (by omega)] at hi
      cases hi
    obtain ⟨_, _, bc, extra, _, _, hd0⟩ := ini.coin i _ (List.getElem?_eq_getElem hlt)
    rw [hd0] at hi
    cases hi
    rfl
  · intro hb
    have ht := totalThreadsNum_exact env config hb
    refine ⟨ht, ?_⟩
    intro p hp
    have hmem : p.2 ∈ (runWorkers schedule 0).map (fun p => p.2) := List.mem_map.mpr ⟨p, hp, rfl⟩
    rw [r3, List.mem_range] at hmem
    omega

/-- Witness for C10 (amended): on the sample configuration two workers are started; when the
second worker runs `InitializeWorkerThread` first, the ids are still 0 and 1. -/
theorem worker_thread_ids_witness :
    main sampleEnv sampleConfig = .next sampleFinal ∧
    [1, 0].Perm (List.range sampleFinal.workerThreads) ∧
    (runWorkers [1, 0] 0).map (fun p => p.2) = List.range (workerThreadsNum sampleEnv sampleConfig) :=
  ⟨by decide, List.Perm.swap 0 1 [],
   (worker_thread_ids sampleEnv sampleConfig sampleFinal [1, 0] (by decide)
     (List.Perm.swap 0 1 [])).2.2.2.2.2.2.1⟩

/-- C10 (counterexample): with `2^32 - 1` configured workers and one coin, initialisation
succeeds, the `totalThreadsNum` given to the coin's dispatcher wraps around to 3 instead of
`workerThreadsNum + 1 + 3`, and it is not true that every worker id is smaller than it (the
fourth worker to run gets id 3). -/
theorem total_threads_wraps :
    (main sampleEnv manyWorkersConfig).isNext = true ∧
    (main sampleEnv manyWorkersConfig).state.poolContext.ClientsDispatcher.map
      (fun d => d.TotalThreadsNum) = [3] ∧
    workerThreadsNum sampleEnv manyWorkersConfig = 4294967295 ∧
    totalThreadsNum sampleEnv manyWorkersConfig = 3 ∧
    totalThreadsNum sampleEnv manyWorkersConfig ≠
      workerThreadsNum sampleEnv manyWorkersConfig + manyWorkersConfig.Coins.length + 3 ∧
    ¬ (∀ schedule : List Nat,
        schedule.Perm (List.range (workerThreadsNum sampleEnv manyWorkersConfig)) →
        ∀ p ∈ runWorkers schedule 0, p.2 < totalThreadsNum sampleEnv manyWorkersConfig) := by
  have hw : workerThreadsNum sampleEnv manyWorkersConfig = 4294967295 := by decide
  have ht : totalThreadsNum sampleEnv manyWorkersConfig = 3 := by
    unfold totalThreadsNum
    rw [hw]
    decide
  refine ⟨by decide, by decide, hw, ht, ?_, ?_⟩
  · rw [ht, hw]; decide
  · intro hall
    have hspec := runWorkers_spec (List.range (workerThreadsNum sampleEnv manyWorkersConfig)) 0
      (by rw [List.length_range, hw]; norm_num)
    have hmem : 3 ∈ (runWorkers (List.range (workerThreadsNum sampleEnv manyWorkersConfig)) 0).map
        (fun p => p.2) := by
      rw [hspec.2, List.length_range, ← List.range_eq_range', List.mem_range, hw]
      norm_num
    obtain ⟨p, hp, hp2⟩ := List.mem_map.mp hmem
    have := hall _ (List.Perm.refl _) p hp
    rw [ht, hp2] at this
    omega

/-- Start-up validation of the coins, apart from the failed SMTP lookup: when some coin name
is unknown to the coin library, or some fee address fails `checkAddress`, or some fee
percentage is greater than 100, `main` ends before anything is started, and it ends with
`return 1` unless the SMTP host lookup has returned null. -/
theorem invalid_coin_is_fatal (env : Env) (config : CPoolFrontendConfig)
    (hbad : ∃ c ∈ config.Coins,
      (env.coinLibraryGet c.Name).Name.isEmpty = true ∨
      (∃ fee ∈ c.Fees, env.checkAddress (env.coinLibraryGet c.Name) fee.Address
        (env.coinLibraryGet c.Name).PayoutAddressType = false) ∨
      (∃ fee ∈ c.Fees, fee.Percentage.gt hundred = true)) :
    ∃ hlt s, main env config = .halt hlt s ∧ NothingStarted s ∧
      (smtpLookupFails env config = false → hlt = .return1) := by
  cases hr : main env config with
  | next s =>
    exfalso
    obtain ⟨s0, h0, _⟩ := main_next hr
    obtain ⟨c, hc, hbad⟩ := hbad
    obtain ⟨i, hi⟩ := List.mem_iff_getElem?.mp hc
    obtain ⟨hn, _, bc, _, hbc, _, _⟩ := (analyzeConfig_next h0).coin i c hi
    obtain ⟨pf, hpf, _⟩ := makeBackendConfig_some hbc
    rcases hbad with hb | ⟨fee, hfee, hb⟩ | ⟨fee, hfee, hb⟩
    · rw [hn] at hb; cases hb
    · rw [((poolFeeLoop_some hpf).2 fee hfee).1] at hb; cases hb
    · rw [((poolFeeLoop_some hpf).2 fee hfee).2] at hb; cases hb
  | halt hlt s =>
    obtain ⟨h1, h2, _⟩ := analyzeConfig_halt (main_halt hr)
    refine ⟨hlt, s, rfl, h1, ?_⟩
    intro hok
    cases hlt with
    | return1 => rfl
    | nullDeref => rw [h2.mp rfl] at hok; cases hok

/-- C2 (the code at the failing input): the only coin, "DOGE", is unknown to the coin library,
SMTP is enabled and the server name does not resolve; `main` does not return 1 but ends in
the dereference of the null `hostent` pointer. -/
theorem unknown_coin_after_failed_smtp_lookup :
    (sampleEnv.coinLibraryGet "DOGE").Name.isEmpty = true ∧
    unknownCoinSmtpFailConfig.Coins.map (fun c => c.Name) = ["DOGE"] ∧
    main sampleEnv unknownCoinSmtpFailConfig =
      .halt .nullDeref (initialState unknownCoinSmtpFailConfig) ∧
    main sampleEnv unknownCoinConfig = .halt .return1 (initialState unknownCoinConfig) := by
  decide

/-- The node clients of every coin, after a successful initialisation: the dispatcher stored
for the coin has received one `addClient` call per configured node, in the order of the
configuration, the k-th client built from the k-th node's address, login and password. -/
theorem node_clients_follow_config (env : Env) (config : CPoolFrontendConfig) (s : State)
    (h : main env config = .next s) :
    ∀ (i : Nat) (c : CCoinConfig), config.Coins[i]? = some c →
      ∃ d : CNetworkClientDispatcher, s.poolContext.ClientsDispatcher[i]? = some d ∧
        d.Clients = c.Nodes.map (clientOf (env.coinLibraryGet c.Name)) := by
  intro i c hi
  obtain ⟨s0, h0, rfl⟩ := main_next h
  obtain ⟨_, _, bc, extra, _, _, hd⟩ := (analyzeConfig_next h0).coin i c hi
  exact ⟨_, by rw [startAll_dispatchers, hd]; rfl, rfl⟩

/-- A node of an unsupported type, apart from the failed SMTP lookup: when the coin at index
`k` has a node whose type is not "bitcoinrpc", `main` ends before anything is started, no
backend exists at index `k`, and `main` ends with `return 1` unless the SMTP host lookup has
returned null. -/
theorem unsupported_node_is_fatal (env : Env) (config : CPoolFrontendConfig) (k : Nat)
    (c : CCoinConfig) (hk : config.Coins[k]? = some c)
    (hbad : ∃ node ∈ c.Nodes, node.Type_ ≠ "bitcoinrpc") :
    ∃ hlt s, main env config = .halt hlt s ∧ NothingStarted s ∧
      s.poolContext.Backends.length ≤ k ∧
      (smtpLookupFails env config = false → hlt = .return1) := by
  have hrej : ∀ t i s0 s1, initBackend env t i c s0 ≠ .next s1 := by
    intro t i s0 s1 hn
    obtain ⟨node, hnode, hty⟩ := hbad
    exact hty ((initBackend_next hn).2.1 node hnode)
  cases hr : main env config with
  | next s =>
    exfalso
    obtain ⟨s0, h0, _⟩ := main_next hr
    obtain ⟨node, hnode, hty⟩ := hbad
    exact hty (((analyzeConfig_next h0).coin k c hk).2.1 node hnode)
  | halt hlt s =>
    have ha := main_halt hr
    obtain ⟨h1, h2, h3⟩ := analyzeConfig_halt ha
    refine ⟨hlt, s, rfl, h1, ?_, ?_⟩
    · unfold analyzeConfig at ha
      split at ha
      · rename_i h0 s0 hs0
        cases ha
        rw [(smtpConfig_halt hs0).1]
        simp [initialState]
      · rename_i s0 hs0
        obtain ⟨smtp, rfl⟩ := smtpConfig_next hs0
        obtain ⟨s1, e1, e2⟩ := @initBackends_reject env (totalThreadsNum env config)
          config.Coins 0 ((initialState config).withSmtp smtp) k c hk hrej
        rw [e1] at ha
        simp only at ha
        cases ha
        simpa [State.withSmtp, initialState] using e2
    · intro hok
      cases hlt with
      | return1 => rfl
      | nullDeref => rw [h2.mp rfl] at hok; cases hok

/-- C7 (the code at the failing input): the only coin has a node of type "ethrpc", SMTP is
enabled and the server name does not resolve; `main` does not return 1 but ends in the
dereference of the null `hostent` pointer. -/
theorem unsupported_node_after_failed_smtp_lookup :
    foreignNodeSmtpFailConfig.Coins.map (fun c => c.Nodes.map (fun node => node.Type_)) =
      [["ethrpc"]] ∧
    main sampleEnv foreignNodeSmtpFailConfig =
      .halt .nullDeref (initialState foreignNodeSmtpFailConfig) ∧
    (main sampleEnv foreignNodeConfig).isNext = false ∧
    (main sampleEnv foreignNodeConfig).state.poolContext.Backends = [] := by
  decide

/-- C3 (amended): after a successful initialisation, for every configured instance (the
`j`-th instance the fabric created) and every coin name in its `Backends` list, the name is
that of the coin configuration entry at index `CoinIdxMap[name]`, and `connectWith(instance)`
was called on the dispatcher stored at that index, which is the dispatcher created for that
entry.  When some instance names a coin that no coin configuration entry has, nothing is
started, and `main` returns 1 provided the SMTP host lookup has not returned null. -/
theorem instances_linked_with_named_dispatchers (env : Env) (config : CPoolFrontendConfig) :
    (∀ s, main env config = .next s →
      ∀ (j : Nat) (ic : CInstanceConfig), config.Instances[j]? = some ic → ∀ name ∈ ic.Backends,
        ∃ (idx : Nat) (c : CCoinConfig) (d : CNetworkClientDispatcher),
          mapFind s.poolContext.CoinIdxMap name = some idx ∧
          config.Coins[idx]? = some c ∧ c.Name = name ∧
          s.poolContext.ClientsDispatcher[idx]? = some d ∧
          d.Id = idx ∧ d.CoinInfo = env.coinLibraryGet name ∧
          d.Clients = c.Nodes.map (clientOf (env.coinLibraryGet name)) ∧
          instanceFor j ic ∈ d.Linked) ∧
    ((∃ ic ∈ config.Instances, ∃ name ∈ ic.Backends, ∀ c ∈ config.Coins, c.Name ≠ name) →
      smtpLookupFails env config = false →
      ∃ s, main env config = .halt .return1 s ∧ NothingStarted s) := by
  constructor
  · intro s h j ic hj name hn
    obtain ⟨s0, h0, rfl⟩ := main_next h
    have ini := analyzeConfig_next h0
    obtain ⟨idx, d, hidx, hd, hin⟩ := (ini.linked j ic hj).2 name hn
    obtain ⟨c, hc, hname⟩ := ini.mapSound name idx hidx
    obtain ⟨_, _, bc, extra, _, _, hd0⟩ := ini.coin idx c hc
    rw [hd0] at hd
    cases hd
    subst hname
    exact ⟨idx, c,
      { (dispatcherFor (env.coinLibraryGet c.Name) (totalThreadsNum env config) idx c.Nodes).withLinks
          extra with Polling := true },
      hidx, hc, rfl, by rw [startAll_dispatchers, hd0]; rfl, rfl, rfl, rfl, hin⟩
  · intro hbad
    have key : ∃ hlt s, main env config = .halt hlt s ∧ NothingStarted s ∧
        (smtpLookupFails env config = false → hlt = .return1) := by
      cases hr : main env config with
      | next s =>
        exfalso
        obtain ⟨s0, h0, _⟩ := main_next hr
        have ini := analyzeConfig_next h0
        obtain ⟨ic, hic, name, hn, hnone⟩ := hbad
        obtain ⟨j, hj⟩ := List.mem_iff_getElem?.mp hic
        obtain ⟨idx, d, hidx, _, _⟩ := (ini.linked j ic hj).2 name hn
        obtain ⟨c, hc, hname⟩ := ini.mapSound name idx hidx
        exact hnone c (List.mem_iff_getElem?.mpr ⟨idx, hc⟩) hname
      | halt hlt s =>
        obtain ⟨h1, h2, _⟩ := analyzeConfig_halt (main_halt hr)
        refine ⟨hlt, s, rfl, h1, ?_⟩
        intro hok
        cases hlt with
        | return1 => rfl
        | nullDeref => rw [h2.mp rfl] at hok; cases hok
    obtain ⟨hlt, s, e1, e2, e3⟩ := key
    intro hok
    have := e3 hok
    subst this
    exact ⟨s, e1, e2⟩

/-- Witness for C3 (amended): the sample configuration initialises successfully and its
instance is linked with the dispatcher of "BTC"; the configuration whose instance names the
unconfigured coin "LTC" makes `main` return 1 with nothing started. -/
theorem instances_linked_with_named_dispatchers_witness :
    main sampleEnv sampleConfig = .next sampleFinal ∧
    sampleConfig.Instances[0]? = some (sampleInstance "main" ["BTC"]) ∧
    (∃ (idx : Nat) (c : CCoinConfig) (d : CNetworkClientDispatcher),
      mapFind sampleFinal.poolContext.CoinIdxMap "BTC" = some idx ∧
      sampleConfig.Coins[idx]? = some c ∧ c.Name = "BTC" ∧
      sampleFinal.poolContext.ClientsDispatcher[idx]? = some d ∧
      d.Id = idx ∧ d.CoinInfo = sampleEnv.coinLibraryGet "BTC" ∧
      d.Clients = c.Nodes.map (clientOf (sampleEnv.coinLibraryGet "BTC")) ∧
      instanceFor 0 (sampleInstance "main" ["BTC"]) ∈ d.Linked) ∧
    smtpLookupFails sampleEnv unknownLinkConfig = false ∧
    ∃ s, main sampleEnv unknownLinkConfig = .halt .return1 s ∧ NothingStarted s :=
  ⟨by decide, by decide,
   (instances_linked_with_named_dispatchers sampleEnv sampleConfig).1 sampleFinal (by decide) 0
     (sampleInstance "main" ["BTC"]) (by decide) "BTC" (by decide),
   by decide,
   (instances_linked_with_named_dispatchers sampleEnv unknownLinkConfig).2
     ⟨sampleInstance "main" ["LTC"], by decide, "LTC", by decide, by decide⟩ (by decide)⟩

/-- C3 (counterexample): "BTC" is a configured coin and the second instance is linked with
it, but the first instance names the unconfigured coin "LTC": `main` returns 1 there, and
`connectWith` has not been called on the dispatcher of "BTC" for any instance.  And when an
instance names an unconfigured coin while the SMTP host lookup fails, `main` does not return
1 but ends in the dereference of the null `hostent` pointer. -/
theorem link_skipped_after_earlier_failure :
    skippedLinkConfig.Coins.map (fun c => c.Name) = ["BTC"] ∧
    skippedLinkConfig.Instances.map (fun ic => ic.Backends) = [["LTC"], ["BTC"]] ∧
    main sampleEnv skippedLinkConfig = .halt .return1 skippedLinkFinal ∧
    skippedLinkFinal.poolContext.ClientsDispatcher.map (fun d => d.Linked) = [[]] ∧
    unknownLinkSmtpFailConfig.Instances.map (fun ic => ic.Backends) = [["LTC"]] ∧
    main sampleEnv unknownLinkSmtpFailConfig =
      .halt .nullDeref (initialState unknownLinkSmtpFailConfig) := by
  decide

/-- C5: in every run from the point where `main` has started everything, whatever the
interleaving of the signal thread, the workers, `main` and the signal deliveries: nothing is
stopped unless the interrupt flag has been set; before the user manager is stopped and before
the reactor is asked to quit, `stop()` has been called on every coin backend (one per
configured coin) and every one of these calls has returned, and the user manager is stopped
before the reactor is asked to quit; before `main` returns, every worker thread has ended and
been joined and, `asyncLoop` returning only once the reactor was asked to quit, the reactor
has been asked to quit.  And once the flag is set, as soon as the signal thread has taken
`2 * backends + 3` further steps, all these stops and the quit request have happened. -/
theorem shutdown_order (env : Env) (config : CPoolFrontendConfig) (s : State)
    (schedule more : List Action) (r r2 : Running)
    (h : main env config = .next s)
    (hr : r = run env schedule (waitForShutdown s))
    (hr2 : r2 = run env more r) :
    s.poolContext.Backends.length = config.Coins.length ∧
    ((∃ i, ShutdownEvent.stopCalled i ∈ r.log) ∨ ShutdownEvent.userMgrStop ∈ r.log ∨
      ShutdownEvent.postQuitOperation ∈ r.log → r.interrupted = true) ∧
    (∀ l1 l2, r.log = l1 ++ ShutdownEvent.userMgrStop :: l2 →
      ∀ i, i < s.poolContext.Backends.length →
        ShutdownEvent.stopCalled i ∈ l1 ∧ ShutdownEvent.stopReturned i ∈ l1) ∧
    (∀ l1 l2, r.log = l1 ++ ShutdownEvent.postQuitOperation :: l2 →
      ShutdownEvent.userMgrStop ∈ l1 ∧
      ∀ i, i < s.poolContext.Backends.length →
        ShutdownEvent.stopCalled i ∈ l1 ∧ ShutdownEvent.stopReturned i ∈ l1) ∧
    (∀ l1 l2, r.log = l1 ++ ShutdownEvent.mainReturn :: l2 →
      (∀ j, j < s.workerThreads →
        ShutdownEvent.workerExit j ∈ l1 ∧ ShutdownEvent.join j ∈ l1) ∧
      (env.asyncLoopReturns false = false → ShutdownEvent.postQuitOperation ∈ l1)) ∧
    (r.interrupted = true →
      2 * s.poolContext.Backends.length + 3 ≤ more.count .sigIntThread →
      (∀ i, i < s.poolContext.Backends.length →
        ShutdownEvent.stopCalled i ∈ r2.log ∧ ShutdownEvent.stopReturned i ∈ r2.log) ∧
      ShutdownEvent.userMgrStop ∈ r2.log ∧ ShutdownEvent.postQuitOperation ∈ r2.log) := by
  have reach : ∀ sched, ShutdownInv env s.poolContext.Backends.length s.workerThreads
      (run env sched (waitForShutdown s)) :=
    fun sched => shutdownInv_run env _ _ sched _ (shutdownInv_init env s)
  have inv : ShutdownInv env s.poolContext.Backends.length s.workerThreads r := by
    rw [hr]; exact reach schedule
  have inv2 : ShutdownInv env s.poolContext.Backends.length s.workerThreads r2 := by
    rw [hr2]; exact shutdownInv_run env _ _ more _ inv
  have hlen : s.poolContext.Backends.length = config.Coins.length := by
    obtain ⟨s0, h0, rfl⟩ := main_next h
    simp [startAll, (analyzeConfig_next h0).backendsLength]
  have hworkers : 1 ≤ s.workerThreads := by
    obtain ⟨s0, h0, rfl⟩ := main_next h
    exact workerThreadsNum_pos env config
  have stops : ∀ (x : Running), ShutdownInv env s.poolContext.Backends.length s.workerThreads x →
      ShutdownEvent.userMgrStop ∈ x.log ∨ ShutdownEvent.postQuitOperation ∈ x.log →
      ∀ i, i < s.poolContext.Backends.length →
        ShutdownEvent.stopCalled i ∈ x.log ∧ ShutdownEvent.stopReturned i ∈ x.log := by
    intro x ix hx i hi
    have hpc : x.sigPc = .quitting ∨ x.sigPc = .done := by
      rcases hx with hx | hx
      · have := ix.userMgr.mp hx
        cases hp : x.sigPc <;> simp [hp, SigPc.userMgrStopped] at this ⊢
      · have := ix.quit.mp hx
        cases hp : x.sigPc <;> simp [hp, SigPc.quitPosted] at this ⊢
    refine ⟨(ix.called i).mpr ?_, (ix.stopped i).mpr ?_⟩
    · rcases hpc with hp | hp <;> simpa [hp, SigPc.called] using hi
    · rcases hpc with hp | hp <;> simpa [hp, SigPc.stopped] using hi
  have quitUm : ∀ (x : Running), ShutdownInv env s.poolContext.Backends.length s.workerThreads x →
      ShutdownEvent.postQuitOperation ∈ x.log → ShutdownEvent.userMgrStop ∈ x.log := by
    intro x ix hx
    have := ix.quit.mp hx
    apply ix.userMgr.mpr
    cases hp : x.sigPc <;> simp [hp, SigPc.quitPosted, SigPc.userMgrStopped] at this ⊢
  have cut : ∀ (e : ShutdownEvent) (l1 l2 : List ShutdownEvent), r.log = l1 ++ e :: l2 →
      ∃ x, ShutdownInv env s.poolContext.Backends.length s.workerThreads x ∧
        x.log = l1 ++ [e] := by
    intro e l1 l2 hl
    rw [hr] at hl
    obtain ⟨pre, hpre⟩ := log_split env schedule (waitForShutdown s) l1 e l2 hl
      (by simp [waitForShutdown])
    exact ⟨_, reach pre, hpre⟩
  refine ⟨hlen, ?_, ?_, ?_, ?_, ?_⟩
  · intro hev
    apply inv.interruptedOn
    intro hw
    rcases hev with ⟨i, hi⟩ | hu | hq
    · have := (inv.called i).mp hi
      simp [hw, SigPc.called] at this
    · have := inv.userMgr.mp hu
      simp [hw, SigPc.userMgrStopped] at this
    · have := inv.quit.mp hq
      simp [hw, SigPc.quitPosted] at this
  · intro l1 l2 hl i hi
    obtain ⟨x, ix, hx⟩ := cut _ l1 l2 hl
    have := stops x ix (Or.inl (by rw [hx]; simp)) i hi
    rw [hx] at this
    simpa using this
  · intro l1 l2 hl
    obtain ⟨x, ix, hx⟩ := cut _ l1 l2 hl
    have hq : ShutdownEvent.postQuitOperation ∈ x.log := by rw [hx]; simp
    have hu := quitUm x ix hq
    rw [hx] at hu
    refine ⟨by simpa using hu, ?_⟩
    intro i hi
    have := stops x ix (Or.inr hq) i hi
    rw [hx] at this
    simpa using this
  · intro l1 l2 hl
    obtain ⟨x, ix, hx⟩ := cut _ l1 l2 hl
    have hm : ShutdownEvent.mainReturn ∈ x.log := by rw [hx]; simp
    have hj : x.joined = s.workerThreads := ix.returnedAll (ix.mainReturn.mp hm)
    constructor
    · intro j hjw
      have hj2 : j < x.joined := by rw [hj]; exact hjw
      have h1 := ix.joinedExited j hj2
      have h2 := (ix.joins j).mpr hj2
      rw [hx] at h1 h2
      exact ⟨by simpa using h1, by simpa using h2⟩
    · intro hloop
      have h0 : 0 < x.joined := by rw [hj]; exact hworkers
      have := ix.exitAfterQuit hloop 0 (ix.joinedExited 0 h0)
      rw [hx] at this
      simpa using this
  · intro hi hcount
    have hrem := remaining_run env _ _ more r inv hi
    rw [← hr2] at hrem
    have hle := remaining_le s.poolContext.Backends.length r.sigPc
    have hzero : r2.sigPc.remaining s.poolContext.Backends.length = 0 := by omega
    have hdone : r2.sigPc = .done := remaining_zero _ _ hzero
    have hq : ShutdownEvent.postQuitOperation ∈ r2.log :=
      inv2.quit.mpr (by simp [hdone, SigPc.quitPosted])
    exact ⟨stops r2 inv2 (Or.inr hq), quitUm r2 inv2 hq, hq⟩

/-- Witness for C5: on the sample configuration (one backend, two workers) a run in which a
signal arrives, the signal thread runs to its end, the workers end and `main` joins them and
returns; the quit request precedes the return of `main`, and five steps of the signal thread
after the signal suffice for the whole shutdown sequence. -/
theorem shutdown_order_witness :
    main sampleEnv sampleConfig = .next sampleFinal ∧
    sampleEnv.asyncLoopReturns false = false ∧
    (run sampleEnv sampleSchedule (waitForShutdown sampleFinal)).log =
      [.stopCalled 0, .stopReturned 0, .userMgrStop, .postQuitOperation, .workerExit 1,
       .workerExit 0, .join 0, .join 1, .mainReturn] ∧
    ShutdownEvent.postQuitOperation ∈
      [ShutdownEvent.stopCalled 0, .stopReturned 0, .userMgrStop, .postQuitOperation,
       .workerExit 1, .workerExit 0, .join 0, .join 1] ∧
    ShutdownEvent.postQuitOperation ∈
      (run sampleEnv (List.replicate 5 .sigIntThread)
        (run sampleEnv [.signal] (waitForShutdown sampleFinal))).log :=
  ⟨by decide, by decide, by decide,
   ((shutdown_order sampleEnv sampleConfig sampleFinal sampleSchedule []
      (run sampleEnv sampleSchedule (waitForShutdown sampleFinal))
      (run sampleEnv [] (run sampleEnv sampleSchedule (waitForShutdown sampleFinal)))
      (by decide) rfl rfl).2.2.2.2.1 _ [] (by decide)).2 (by decide),
   ((shutdown_order sampleEnv sampleConfig sampleFinal [.signal] (List.replicate 5 .sigIntThread)
      (run sampleEnv [.signal] (waitForShutdown sampleFinal))
      (run sampleEnv (List.replicate 5 .sigIntThread)
        (run sampleEnv [.signal] (waitForShutdown sampleFinal)))
      (by decide) rfl rfl).2.2.2.2.2 (by decide) (by decide)).2.2⟩

end PoolFrontend
